import Mathlib

/-!
Verification development for the flat-DB sub-trie loader
(src/trie/flatdb_sub_trie_loader.go) and the plain state writer
(src/unnamed/part_000, package state).

Byte strings are modelled as lists of naturals (each entry a byte value);
Go machine integers are naturals with explicit reductions modulo powers
of two where overflow matters.  The backing bolt cursors are modelled as
pure lookups over a sorted association list, the hash builder as a
syntactic trace of the operations it receives (it is an external
black box per the specification), and the loader itself as an explicit
state machine with fuel for the two unbounded loops.
-/

set_option maxRecDepth 8000

namespace FlatDb

abbrev Bytes := List Nat

/-- Go bytes.Compare, returning -1, 0 or 1. -/
def bytesCmp : Bytes → Bytes → Int
  | [], [] => 0
  | [], _ :: _ => -1
  | _ :: _, [] => 1
  | a :: as, b :: bs => if a < b then -1 else if b < a then 1 else bytesCmp as bs

/-- Go bytes.HasPrefix. -/
def hasPref (s pre : Bytes) : Bool := s.take pre.length == pre

/-- Go copy(dst, src): overwrites the first min(len dst, len src) bytes of dst. -/
def copyBytes (dst src : Bytes) : Bytes :=
  src.take (min dst.length src.length) ++ dst.drop (min dst.length src.length)

/-- Big-endian 8-byte encoding of a uint64 (binary.BigEndian.PutUint64). -/
def be8 (n : Nat) : Bytes :=
  [n / 2 ^ 56 % 256, n / 2 ^ 48 % 256, n / 2 ^ 40 % 256, n / 2 ^ 32 % 256,
   n / 2 ^ 24 % 256, n / 2 ^ 16 % 256, n / 2 ^ 8 % 256, n % 256]

/-- Bitwise complement of a uint64 (Go ^x on uint64). -/
def notUint64 (n : Nat) : Nat := 2 ^ 64 - 1 - n % 2 ^ 64

/-- binary.BigEndian.Uint64: reads the first 8 bytes; panics (none) if fewer. -/
def beUint64 (v : Bytes) : Option Nat :=
  if v.length < 8 then none
  else some ((((((((v.getD 0 0) * 256 + v.getD 1 0) * 256 + v.getD 2 0) * 256 +
    v.getD 3 0) * 256 + v.getD 4 0) * 256 + v.getD 5 0) * 256 + v.getD 6 0) * 256 + v.getD 7 0)

/-- keyToNibbles (flatdb_sub_trie_loader.go:609): two nibbles per byte, high first. -/
def keyToNibbles : Bytes → Bytes
  | [] => []
  | b :: rest => b / 16 :: b % 16 :: keyToNibbles rest

/-- keyToNibblesWithoutInc (flatdb_sub_trie_loader.go:618): nibbles of the first
32 bytes, then (when the key is longer than 40 bytes) nibbles of the bytes from
offset 40 on; bytes 32..39 (the incarnation) are skipped. -/
def keyToNibblesWithoutInc (k : Bytes) : Bytes :=
  keyToNibbles (k.take 32) ++ (if 40 < k.length then keyToNibbles (k.drop 40) else [])

/-- nextSubtree (flatdb_sub_trie_loader.go:760): byte-slice increment,
none on overflow (all bytes 255, or empty input).  Implemented on the
reversed list to mirror the right-to-left carry loop. -/
def incRevBytes : Bytes → Option Bytes
  | [] => none
  | b :: rest => if b ≠ 255 then some ((b + 1) :: rest) else (incRevBytes rest).map (0 :: ·)

def nextSubtree (k : Bytes) : Option Bytes := (incRevBytes k.reverse).map List.reverse

/-- nextAccount (flatdb_sub_trie_loader.go:775) copies the input into a 32-byte
buffer and increments it.  Every call site guards len(in) > 32, so the buffer
is fully overwritten by the first 32 input bytes and the result is a pure
function of the input. -/
def nextAccount (k : Bytes) : Option Bytes := nextSubtree (k.take 32)

/-- keyIsBefore (flatdb_sub_trie_loader.go:788): nil is the last key;
returns (is k1 before-or-equal, the minimum key). -/
def keyIsBefore : Option Bytes → Option Bytes → Bool × Option Bytes
  | none, k2 => (false, k2)
  | some k1, none => (true, some k1)
  | some k1, some k2 => if bytesCmp k1 k2 ≤ 0 then (true, some k1) else (false, some k2)

/-- Modelled from the spec: ethdb.Bytesmask (spec section 4.3).  For range i the
first fixedbytes-1 bytes must match the prefix exactly and the next byte must
match under a left-aligned bit mask corresponding to fixedBits mod 8. -/
def bytesmask (fixedbits : Nat) : Nat × Nat :=
  ((fixedbits + 7) / 8,
   if fixedbits % 8 = 0 then 255 else 255 * 2 ^ (8 - fixedbits % 8) % 256)

/-- Cutoff derivation in Reset (flatdb_sub_trie_loader.go:130-137). -/
def cutoffOf (bits : Nat) : Nat :=
  if bits ≥ 256 + 64 then bits / 4 - 16 else bits / 4

/-- The cutoffs array built by Reset for a fixedbits list. -/
def mkCutoffs (fixedbits : List Nat) : List Nat := fixedbits.map cutoffOf

/-! ### The backing store: sorted association list with bolt cursor semantics -/

abbrev DB := List (Bytes × Bytes)

/-- Cursor SeekTo: smallest key greater than or equal to the sought prefix
(the association list is kept sorted by key). -/
def seekToDB (db : DB) (p : Bytes) : Option (Bytes × Bytes) :=
  db.find? (fun e => bytesCmp p e.1 ≤ 0)

/-- Cursor Next from a current key: smallest key strictly greater. -/
def nextDB (db : DB) (k : Bytes) : Option (Bytes × Bytes) :=
  db.find? (fun e => bytesCmp k e.1 < 0)

/-! ### Witness length lookup (LoadSubTries closure, flatdb_sub_trie_loader.go:537-546) -/

/-- The getWitnessLen closure.  Returns (whether the IntermediateTrieWitnessLen
cursor was consulted, the result); none models a panic: either the key found by
SeekTo differs from the prefix, or the value is shorter than 8 bytes. -/
def getWitnessLen (track : Bool) (iwl : DB) (p : Bytes) : Bool × Option Nat :=
  if !track then (false, some 0)
  else
    match seekToDB iwl p with
    | none => (true, if p = [] then beUint64 [] else none)
    | some (k, v) => (true, if k = p then beUint64 v else none)

/-! ### PlainStateWriter.WriteAccountStorage (src/unnamed/part_000:66-80) -/

inductive Bucket
  | plainState
  | storageChangeSet
  deriving DecidableEq, Repr

inductive DbEffect
  | put (b : Bucket) (key val : Bytes)
  | del (b : Bucket) (key : Bytes)
  deriving DecidableEq, Repr

def DbEffect.bucket : DbEffect → Bucket
  | .put b _ _ => b
  | .del b _ => b

/-- Minimal big-endian encoding of a natural; empty iff zero
(uint256.Int.Bytes()). -/
def natToBE : Nat → Bytes
  | 0 => []
  | n + 1 => natToBE ((n + 1) / 256) ++ [(n + 1) % 256]
decreasing_by exact Nat.div_lt_self (Nat.succ_pos n) (by omega)

/-- Modelled from the spec: dbutils.PlainGenerateCompositeStorageKey, the
composite storage key address-bytes, 8-byte big-endian incarnation,
slot key (spec section 3). -/
def plainCompositeStorageKey (addr : Bytes) (inc : Nat) (key : Bytes) : Bytes :=
  addr ++ be8 inc ++ key

/-- Modelled from the spec: the ChangeSetWriter is an external collaborator
persisting the change record; it touches only the change-set bucket, never
PlainState. -/
def cswWriteAccountStorage (addr : Bytes) (inc : Nat) (key : Bytes) (original : Nat) :
    List DbEffect :=
  [.put .storageChangeSet (addr ++ be8 inc ++ key) (natToBE original)]

/-- WriteAccountStorage (src/unnamed/part_000:66-80): the change-set record is
written first; then if original equals the new value nothing touches
PlainState; otherwise the composite key is deleted when the new value encodes
to the empty byte string, and written with that encoding otherwise. -/
def writeAccountStorage (addr : Bytes) (inc : Nat) (key : Bytes) (original value : Nat) :
    List DbEffect :=
  cswWriteAccountStorage addr inc key original ++
    (if original = value then []
     else if natToBE value = [] then
       [.del .plainState (plainCompositeStorageKey addr inc key)]
     else
       [.put .plainState (plainCompositeStorageKey addr inc key) (natToBE value)])

/-! ### Accounts, stream items, hash-builder trace -/

structure Account where
  nonce : Nat
  balance : Nat
  incarnation : Nat
  codeHash : Bytes
  deriving DecidableEq, Repr

def Account.empty : Account := ⟨0, 0, 0, []⟩

/-- Modelled from the spec: accounts.Account.DecodeForStorage is the external
account codec (spec section 6); the loader reads nonce, balance, incarnation
and code hash from the decoded account.  The model decodes them from fixed
positions of the value bytes and never fails. -/
def decodeForStorage (v : Bytes) : Option Account :=
  some { nonce := v.getD 0 0, balance := v.getD 1 0, incarnation := v.getD 2 0,
         codeHash := v.drop 3 }

/-- Modelled from the spec: Account.IsEmptyCodeHash (external codec). -/
def isEmptyCodeHash (a : Account) : Bool := a.codeHash.isEmpty

/-- Modelled from the spec: the account field-set bit constants used with
AccountFieldNonceOnly, AccountFieldBalanceOnly, AccountFieldCodeOnly and
AccountFieldStorageOnly; distinct bits of a bitmask. -/
def fieldNonceOnly : Nat := 1
def fieldBalanceOnly : Nat := 2
def fieldCodeOnly : Nat := 8
def fieldStorageOnly : Nat := 32

inductive StreamItem
  | storage
  | shash
  | account
  | ahash
  | cutoff
  deriving DecidableEq, Repr

/-- GenStructStep data variants (spec section 4.5): LeafData, AccountData,
HashData.  The account variant records the snapshot of the field set and
scalar fields at the time of the call. -/
inductive GSData
  | leaf (value : Bytes)
  | acct (fieldSet balance nonce incarnation : Nat)
  | hashD (hash : Bytes) (dataLen : Nat)
  deriving DecidableEq, Repr

/-- The hash builder is an external black box (spec section 6); it is modelled
syntactically as the trace of operations the loader feeds it, newest first. -/
inductive HBOp
  | genStruct (curr succ : Bytes) (data : GSData)
  | hashOp (h : Bytes) (d : Nat)
  deriving DecidableEq, Repr

/-- A root hash in the output: the zero hash (empty range) or the abstract
hash of a builder trace. -/
inductive MHash
  | zero
  | ofTrace (t : List HBOp)
  deriving DecidableEq, Repr

/-- common.BytesToHash: a fresh 32-byte hash from the last 32 bytes of the
input, left-padded with zeros. -/
def bytesToHash32 (b : Bytes) : Bytes :=
  let t := b.drop (b.length - 32)
  List.replicate (32 - t.length) 0 ++ t

/-- The divergence depth of two nibble keys. -/
def commonLen : Bytes → Bytes → Nat
  | a :: as, b :: bs => if a = b then commonLen as bs + 1 else 0
  | _, _ => 0

/-- Modelled from the spec: GenStructStep returns the updated groups, the
running per-depth child bitmap (spec section 4.5).  The bitmap is padded or
truncated to the divergence depth of curr and succ with the child bit of succ
at that depth set; the hash-builder side effect is recorded on the trace by
the callers. -/
def genStructGroups (curr succ : Bytes) (groups : List Nat) : List Nat :=
  let d := commonLen curr succ
  let g := (groups ++ List.replicate (d + 1 - groups.length) 0).take (d + 1)
  g.set d (g.getD d 0 ||| 2 ^ (succ.getD d 0 % 16))

/-- Drop trailing zero entries of the groups vector
(flatdb_sub_trie_loader.go:462-464, 514-516). -/
def trimZeros (g : List Nat) : List Nat := (g.reverse.dropWhile (· == 0)).reverse

/-! ### Loader state (struct FlatDbSubTrieLoader, flatdb_sub_trie_loader.go:24-78)

The cursor pair is modelled by the pure lookups seekToDB/nextDB, so the
k/v and ihK/ihV fields double as the cursor positions (every assignment to
them in the source comes from a cursor operation or sets nil, and Next is
only invoked while k holds the cursor result).  The fields cAdv, ihAdv,
lastSHashWL, lastAHashWL, emittedKey and cutoffEmits are ghost
instrumentation: they record cursor advances, the witness lengths looked up
for the latest hash items, the full key of the latest leaf/hash emission,
and the number of cutoff emissions; they never influence control flow. -/

structure LState where
  rangeIdx : Nat
  curr : Bytes
  succ : Bytes
  value : Bytes
  groups : List Nat
  a : Account
  wasIH : Bool
  wasIHStorage : Bool
  currStorage : Bytes
  succStorage : Bytes
  valueStorage : Bytes
  witnessLenAccount : Nat
  witnessLenStorage : Nat
  accAddrHashWithInc : Bytes
  kv : Option (Bytes × Bytes)
  ihkv : Option (Bytes × Bytes)
  itemPresent : Bool
  itemType : StreamItem
  storageKeyPart1 : Bytes
  storageKeyPart2 : Bytes
  storageHash : Bytes
  storageValue : Bytes
  storageWitnessLen : Nat
  accountKey : Bytes
  accountHash : Bytes
  accountValue : Account
  streamCutoff : Nat
  accountWitnessLen : Nat
  accFieldSet : Nat
  hashDataHash : Bytes
  hb : List HBOp
  roots : List (Option (List HBOp))
  hashes : List MHash
  cAdv : Nat
  ihAdv : Nat
  lastSHashWL : Option Nat
  lastAHashWL : Option Nat
  emittedKey : Bytes
  cutoffEmits : Nat
  cutoffsConsumed : Nat
  deriving DecidableEq, Repr

/-- The read-only context of one load: the three buckets, the retention
predicate, the witness-size flag, and the arrays built by Reset. -/
structure Ctx where
  dbC : DB
  dbIH : DB
  dbIWL : DB
  rl : Bytes → Bool
  track : Bool
  dbPrefixes : List Bytes
  fixedbytes : List Nat
  masks : List Nat
  cutoffs : List Nat

/-- Builds the context the way Reset does (flatdb_sub_trie_loader.go:127-140). -/
def mkCtx (dbC dbIH dbIWL : DB) (rl : Bytes → Bool) (track : Bool)
    (dbPrefixes : List Bytes) (fixedbits : List Nat) : Ctx :=
  { dbC := dbC, dbIH := dbIH, dbIWL := dbIWL, rl := rl, track := track,
    dbPrefixes := dbPrefixes,
    fixedbytes := fixedbits.map (fun b => (bytesmask b).1),
    masks := fixedbits.map (fun b => (bytesmask b).2),
    cutoffs := mkCutoffs fixedbits }

/-- Reset (flatdb_sub_trie_loader.go:88-143): clears the walker and output
state; it does not touch accAddrHashWithInc, the cursor keys, the stream-item
buffers, the witness-length counters or the account field set.  The ghost
advance counters are restarted with the run. -/
def resetLoader (s : LState) : LState :=
  { s with
    rangeIdx := 0
    curr := []
    succ := []
    value := []
    groups := []
    a := Account.empty
    hb := []
    wasIH := false
    currStorage := []
    succStorage := []
    valueStorage := []
    wasIHStorage := false
    roots := []
    hashes := []
    itemPresent := false
    cAdv := 0
    ihAdv := 0
    cutoffEmits := 0
    cutoffsConsumed := 0 }

def kKeyD (s : LState) : Bytes := (s.kv.map Prod.fst).getD []
def kValD (s : LState) : Bytes := (s.kv.map Prod.snd).getD []
def kLen (s : LState) : Nat := (kKeyD s).length
def ihKeyD (s : LState) : Bytes := (s.ihkv.map Prod.fst).getD []
def ihValD (s : LState) : Bytes := (s.ihkv.map Prod.snd).getD []
def ihLen (s : LState) : Nat := (ihKeyD s).length

/-! ### Cursor operations with ghost advance counting -/

def seekC (ctx : Ctx) (s : LState) (p : Bytes) : LState :=
  { s with kv := seekToDB ctx.dbC p, cAdv := s.cAdv + 1 }

def nextC (ctx : Ctx) (s : LState) : LState :=
  { s with
    kv :=
      match s.kv with
      | some (k, _) => nextDB ctx.dbC k
      | none => none
    cAdv := s.cAdv + 1 }

def seekIH (ctx : Ctx) (s : LState) (p : Bytes) : LState :=
  { s with ihkv := seekToDB ctx.dbIH p, ihAdv := s.ihAdv + 1 }

def nextIH (ctx : Ctx) (s : LState) : LState :=
  { s with
    ihkv :=
      match s.ihkv with
      | some (k, _) => nextDB ctx.dbIH k
      | none => none
    ihAdv := s.ihAdv + 1 }

/-- Advance past the storage to the first account on the main cursor
(flatdb_sub_trie_loader.go:197-201 and analogues): seek to nextAccount of the
current key, or park the cursor on nil on overflow. -/
def jumpC (ctx : Ctx) (s : LState) : LState :=
  match s.kv with
  | some (k, _) =>
    match nextAccount k with
    | some na => seekC ctx s na
    | none => { s with kv := none }
  | none => s

def jumpIH (ctx : Ctx) (s : LState) : LState :=
  match s.ihkv with
  | some (k, _) =>
    match nextAccount k with
    | some na => seekIH ctx s na
    | none => { s with ihkv := none }
  | none => s

/-! ### The merge-step iterator (iteration, flatdb_sub_trie_loader.go:147-396) -/

/-- The local variables of one iteration call. -/
structure Locals where
  isIH : Bool
  minKey : Option Bytes
  fixedbytes : Nat
  cutoff : Nat
  dbPref : Bytes
  mask : Nat
  cmp : Int
  deriving Repr

/-- One evaluation of the cmp expression at the top of the reconciliation
loop (flatdb_sub_trie_loader.go:160-184). -/
def computeCmp (first : Bool) (l : Locals) : Int :=
  match l.minKey with
  | none => if first then l.cmp else 1
  | some mk =>
    if 0 < l.fixedbytes then
      if mk.length < l.fixedbytes then
        let c := bytesCmp mk (l.dbPref.take mk.length)
        if c = 0 then -1 else c
      else
        let c := bytesCmp (mk.take (l.fixedbytes - 1)) (l.dbPref.take (l.fixedbytes - 1))
        if c = 0 then
          let k1 := mk.getD (l.fixedbytes - 1) 0 &&& l.mask
          let k2 := l.dbPref.getD (l.fixedbytes - 1) 0 &&& l.mask
          if k1 < k2 then -1 else if k2 < k1 then 1 else 0
        else c
    else 0

/-- The cmp < 0 branch of the reconciliation loop
(flatdb_sub_trie_loader.go:188-215): position both cursors at the range
prefix (jumping past storage when the range is at account level), remember
the storage account on first entry, recompute the minimum, and force cmp to 0
when the range has no fixed bytes. -/
def rangeSeekPass (ctx : Ctx) (first : Bool) (l : Locals) (s : LState) : Locals × LState :=
  let s := { s with
    accAddrHashWithInc :=
      if first ∧ 32 < l.dbPref.length then copyBytes s.accAddrHashWithInc (l.dbPref.take 40)
      else s.accAddrHashWithInc }
  let s := seekC ctx s l.dbPref
  let s := if l.dbPref.length ≤ 32 ∧ 32 < kLen s then jumpC ctx s else s
  let s := seekIH ctx s l.dbPref
  let s := if l.dbPref.length ≤ 32 ∧ 32 < ihLen s then jumpIH ctx s else s
  let im := keyIsBefore (s.ihkv.map Prod.fst) (s.kv.map Prod.fst)
  ({ l with
      isIH := im.1
      minKey := im.2
      cmp := if l.fixedbytes = 0 then 0 else l.cmp }, s)

inductive LoopRes
  | fuelOut
  | ret (s : LState)
  | fall (l : Locals) (s : LState)

/-- The range-boundary reconciliation loop (flatdb_sub_trie_loader.go:159-237).
fall means the loop condition cmp = 0 became false...true and control falls
through to the leaf/hash part; ret models a return statement inside the loop. -/
def iterLoop (ctx : Ctx) (first : Bool) : Nat → Locals → LState → LoopRes
  | 0, _, _ => .fuelOut
  | fuel + 1, l, s =>
    if l.cmp = 0 then .fall l s
    else
      let cmp := computeCmp first l
      let l := { l with cmp := cmp }
      if cmp = 0 ∧ s.itemPresent then .ret s
      else if cmp < 0 then
        let ls := rangeSeekPass ctx first l s
        iterLoop ctx first fuel ls.1 ls.2
      else if 0 < cmp then
        let s := { s with
          rangeIdx := if first then s.rangeIdx else s.rangeIdx + 1
          itemPresent := if first then s.itemPresent else true
          itemType := if first then s.itemType else .cutoff
          streamCutoff := if first then s.streamCutoff else l.cutoff
          cutoffEmits := if first then s.cutoffEmits else s.cutoffEmits + 1 }
        if s.rangeIdx = ctx.dbPrefixes.length then .ret s
        else
          let dbPref := ctx.dbPrefixes.getD s.rangeIdx []
          let s := { s with
            accAddrHashWithInc :=
              if 32 < dbPref.length then copyBytes s.accAddrHashWithInc (dbPref.take 40)
              else s.accAddrHashWithInc }
          let l :=
            { l with
              fixedbytes := ctx.fixedbytes.getD s.rangeIdx 0
              mask := ctx.masks.getD s.rangeIdx 0
              dbPref := dbPref
              cutoff := ctx.cutoffs.getD s.rangeIdx 0 }
          iterLoop ctx first fuel l s
      else .fall l s

/-- Skip the subtree covered by an emitted cached hash
(flatdb_sub_trie_loader.go:367-391): reposition both cursors at the
incremented key unless they already start with it, jumping past storage when
the target is at account level. -/
def skipSubtree (ctx : Ctx) (nxt : Bytes) (s : LState) : LState :=
  let s := if ¬hasPref (kKeyD s) nxt then seekC ctx s nxt else s
  let s := if nxt.length ≤ 32 ∧ 32 < kLen s then jumpC ctx s else s
  let s := if ¬hasPref (ihKeyD s) nxt then seekIH ctx s nxt else s
  let s := if nxt.length ≤ 32 ∧ 32 < ihLen s then jumpIH ctx s else s
  s

/-- The part of iteration after the reconciliation loop
(flatdb_sub_trie_loader.go:239-395): emit a leaf or account item from the main
cursor, or descend/emit/skip on the intermediate-hash cursor.  none models a
panic or decode error (or, in the account branch with a nil key, the source
reading a stale cursor value). -/
def iterPost (ctx : Ctx) (l : Locals) (s : LState) : Option LState :=
  if !l.isIH then
    if 32 < kLen s ∧ ¬hasPref (kKeyD s) s.accAddrHashWithInc then
      if bytesCmp (kKeyD s) s.accAddrHashWithInc < 0 then
        some (seekC ctx s s.accAddrHashWithInc)
      else
        some (jumpC ctx s)
    else
      let s := { s with itemPresent := true }
      if 32 < kLen s then
        let k := kKeyD s
        let v := kValD s
        let s :=
          { s with
            itemType := .storage
            storageKeyPart1 := if 32 ≤ k.length then k.take 32 else k
            storageKeyPart2 :=
              if 32 ≤ k.length then (if 40 ≤ k.length then k.drop 40 else []) else []
            storageHash := []
            storageValue := v
            emittedKey := k }
        some (nextC ctx s)
      else
        match s.kv with
        | none => none
        | some (k, v) =>
          match decodeForStorage v with
          | none => none
          | some acct =>
            let s :=
              { s with
                itemType := .account
                accountKey := k
                accountHash := []
                accountValue := acct
                emittedKey := k }
            let acc1 := copyBytes s.accAddrHashWithInc k
            let acc2 := acc1.take 32 ++ be8 (notUint64 acct.incarnation) ++ acc1.drop 40
            let s := { s with accAddrHashWithInc := acc2 }
            let s := seekC ctx s acc2
            let s := if ¬hasPref (ihKeyD s) acc2 then seekIH ctx s acc2 else s
            some s
  else
    let pref := keyToNibblesWithoutInc (l.minKey.getD [])
    if pref.length < l.cutoff then some (nextIH ctx s)
    else if ctx.rl pref then some (nextIH ctx s)
    else if 32 < ihLen s ∧ ¬hasPref (ihKeyD s) s.accAddrHashWithInc then
      if bytesCmp (ihKeyD s) s.accAddrHashWithInc < 0 then
        some (seekIH ctx s s.accAddrHashWithInc)
      else
        some (jumpIH ctx s)
    else
      let s := { s with itemPresent := true }
      let ihK := ihKeyD s
      let ihV := ihValD s
      let es :=
        if 32 < ihK.length then
          match (getWitnessLen ctx.track ctx.dbIWL ihK).2 with
          | none => none
          | some wl =>
            some { s with
              itemType := .shash
              storageKeyPart1 := if 32 ≤ ihK.length then ihK.take 32 else ihK
              storageKeyPart2 :=
                if 32 ≤ ihK.length then (if 40 ≤ ihK.length then ihK.drop 40 else []) else []
              storageHash := ihV
              storageValue := []
              storageWitnessLen := wl
              lastSHashWL := some wl
              emittedKey := ihK }
        else
          match (getWitnessLen ctx.track ctx.dbIWL ihK).2 with
          | none => none
          | some wl =>
            some { s with
              itemType := .ahash
              accountKey := ihK
              accountHash := ihV
              accountWitnessLen := wl
              lastAHashWL := some wl
              emittedKey := ihK }
      match es with
      | none => none
      | some s =>
        match nextSubtree ihK with
        | none => some { s with kv := none, ihkv := none }
        | some nxt => some (skipSubtree ctx nxt s)

/-- One invocation of iteration (flatdb_sub_trie_loader.go:147-396). -/
def iteration (ctx : Ctx) (fuel : Nat) (first : Bool) (s : LState) : Option LState :=
  let im := if first then (false, none) else
    keyIsBefore (s.ihkv.map Prod.fst) (s.kv.map Prod.fst)
  let l : Locals :=
    { isIH := im.1
      minKey := im.2
      fixedbytes := ctx.fixedbytes.getD s.rangeIdx 0
      cutoff := ctx.cutoffs.getD s.rangeIdx 0
      dbPref := ctx.dbPrefixes.getD s.rangeIdx []
      mask := ctx.masks.getD s.rangeIdx 0
      cmp := -1 }
  match iterLoop ctx first fuel l s with
  | .fuelOut => none
  | .ret s2 => some s2
  | .fall l2 s2 => iterPost ctx l2 s2

/-! ### Structural walkers (flatdb_sub_trie_loader.go:639-758) -/

/-- WalkerStorage (flatdb_sub_trie_loader.go:639-685). -/
def walkerStorage (isIH : Bool) (kPart1 kPart2 v h : Bytes) (witnessLen : Nat)
    (s : LState) : LState :=
  let currS := s.succStorage
  let succS := keyToNibbles kPart1 ++ keyToNibbles kPart2 ++ (if isIH then [] else [16])
  let s := { s with currStorage := currS, succStorage := succS }
  let s :=
    if 0 < currS.length then
      if s.wasIHStorage then
        let hh := bytesToHash32 s.valueStorage
        { s with
          hashDataHash := hh
          hb := HBOp.genStruct currS succS (GSData.hashD hh s.witnessLenStorage) :: s.hb
          groups := genStructGroups currS succS s.groups }
      else
        { s with
          hb := HBOp.genStruct currS succS (GSData.leaf s.valueStorage) :: s.hb
          groups := genStructGroups currS succS s.groups }
    else s
  { s with
    wasIHStorage := isIH
    valueStorage := if isIH then h else v
    witnessLenStorage := if isIH then witnessLen else s.witnessLenStorage }

/-- finaliseStorageRoot (flatdb_sub_trie_loader.go:487-526).  none models the
panic when currStorage is shorter than the cutoff (the source slices
currStorage[:cutoff-1] and indexes currStorage[cutoff-1] unguarded). -/
def finaliseStorageRoot (cutoff : Nat) (s : LState) : Option (Bool × LState) :=
  let currS := s.succStorage
  let s := { s with currStorage := currS, succStorage := [] }
  if 0 < currS.length then
    if currS.length < cutoff ∨ cutoff = 0 then none
    else
      let succS := currS.take (cutoff - 1) ++ [currS.getD (cutoff - 1) 0 + 1]
      let s := { s with succStorage := succS }
      let s :=
        if s.wasIHStorage then
          let hh := bytesToHash32 s.valueStorage
          { s with
            hashDataHash := hh
            hb := HBOp.genStruct currS succS (GSData.hashD hh s.storageWitnessLen) :: s.hb
            groups := genStructGroups currS succS s.groups }
        else
          { s with
            hb := HBOp.genStruct currS succS (GSData.leaf s.valueStorage) :: s.hb
            groups := genStructGroups currS succS s.groups }
      let g := if cutoff ≤ s.groups.length then s.groups.take (cutoff - 1) else s.groups
      some (true, { s with
        groups := trimZeros g
        currStorage := []
        succStorage := []
        wasIHStorage := false })
  else some (false, s)

/-- WalkerAccount (flatdb_sub_trie_loader.go:688-758). -/
def walkerAccount (isIH : Bool) (k : Bytes) (v : Account) (h : Bytes) (witnessLen : Nat)
    (s : LState) : Option LState :=
  let curr := s.succ
  let succ := keyToNibbles k ++ (if isIH then [] else [16])
  let s := { s with curr := curr, succ := succ }
  let flushed :=
    if 0 < curr.length then
      let dataS :=
        if s.wasIH then
          let hh := copyBytes s.hashDataHash s.value
          some (GSData.hashD hh s.witnessLenAccount, { s with hashDataHash := hh })
        else
          match finaliseStorageRoot 64 s with
          | none => none
          | some (ok, s1) =>
            let fs := s1.accFieldSet ||| (if ok then fieldStorageOnly else 0)
            let fs := fs ||| (if s1.a.balance ≠ 0 then fieldBalanceOnly else 0)
            let fs := fs ||| (if s1.a.nonce ≠ 0 then fieldNonceOnly else 0)
            some (GSData.acct fs s1.a.balance s1.a.nonce s1.a.incarnation,
              { s1 with accFieldSet := fs })
      match dataS with
      | none => none
      | some (data, s2) =>
        let s3 := { s2 with wasIHStorage := false, currStorage := [], succStorage := [] }
        some { s3 with
          hb := HBOp.genStruct curr succ data :: s3.hb
          groups := genStructGroups curr succ s3.groups
          accFieldSet := 0 }
    else some s
  match flushed with
  | none => none
  | some s =>
    let s := { s with wasIH := isIH }
    if isIH then
      some { s with value := h, witnessLenAccount := witnessLen }
    else
      let s := { s with a := v }
      if ¬isEmptyCodeHash v then
        some { s with
          accFieldSet := s.accFieldSet ||| fieldCodeOnly
          hb := HBOp.hashOp v.codeHash 0 :: s.hb }
      else some s

/-- finaliseRoot (flatdb_sub_trie_loader.go:402-478). -/
def finaliseRoot (cutoff : Nat) (s : LState) : Option LState :=
  if 64 ≤ cutoff then
    match finaliseStorageRoot cutoff s with
    | none => none
    | some (ok, s) =>
      if ok then
        some { s with roots := s.roots ++ [some s.hb], hashes := s.hashes ++ [.ofTrace s.hb] }
      else
        some { s with roots := s.roots ++ [none], hashes := s.hashes ++ [.zero] }
  else
    let curr := s.succ
    let s := { s with curr := curr, succ := [] }
    let flushed :=
      if 0 < curr.length then
        if 0 < cutoff ∧ curr.length < cutoff then none
        else
          let succ := if 0 < cutoff then curr.take (cutoff - 1) ++ [curr.getD (cutoff - 1) 0 + 1] else []
          let s := { s with succ := succ }
          let dataS :=
            if s.wasIH then
              let hh := bytesToHash32 s.value
              some (GSData.hashD hh s.accountWitnessLen, { s with hashDataHash := hh })
            else
              match finaliseStorageRoot 64 s with
              | none => none
              | some (ok, s1) =>
                let fs := s1.accFieldSet ||| (if ok then fieldStorageOnly else 0)
                let s1 := { s1 with wasIHStorage := false }
                let fs := fs ||| (if s1.a.balance ≠ 0 then fieldBalanceOnly else 0)
                let fs := fs ||| (if s1.a.nonce ≠ 0 then fieldNonceOnly else 0)
                some (GSData.acct fs s1.a.balance s1.a.nonce s1.a.incarnation,
                  { s1 with accFieldSet := fs })
          match dataS with
          | none => none
          | some (data, s2) =>
            let s3 :=
              { s2 with
                hb := HBOp.genStruct curr succ data :: s2.hb
                groups := genStructGroups curr succ s2.groups }
            let g := if cutoff < s3.groups.length then s3.groups.take cutoff else s3.groups
            some { s3 with groups := trimZeros g, accFieldSet := 0 }
      else some s
    match flushed with
    | none => none
    | some s =>
      some { s with
        roots := s.roots ++ [some s.hb]
        hashes := s.hashes ++ [.ofTrace s.hb]
        groups := []
        hb := []
        wasIH := false
        wasIHStorage := false
        curr := []
        succ := []
        currStorage := []
        succStorage := [] }

/-! ### The driver (LoadSubTries, flatdb_sub_trie_loader.go:528-587) -/

/-- The switch on the item type in the driver loop. -/
def dispatch (s : LState) : Option LState :=
  match s.itemType with
  | .storage =>
    some (walkerStorage false s.storageKeyPart1 s.storageKeyPart2 s.storageValue
      s.storageHash s.storageWitnessLen s)
  | .shash =>
    some (walkerStorage true s.storageKeyPart1 s.storageKeyPart2 s.storageValue
      s.storageHash s.storageWitnessLen s)
  | .account => walkerAccount false s.accountKey s.accountValue s.accountHash
      s.accountWitnessLen s
  | .ahash => walkerAccount true s.accountKey s.accountValue s.accountHash
      s.accountWitnessLen s
  | .cutoff =>
    (finaliseRoot s.streamCutoff s).map
      (fun t => { t with cutoffsConsumed := t.cutoffsConsumed + 1 })

/-- The inner loop: run iteration until an item is present. -/
def iterUntil (ctx : Ctx) (innerFuel : Nat) : Nat → LState → Option LState
  | 0, _ => none
  | fuel + 1, s =>
    if s.itemPresent then some s
    else
      match iteration ctx innerFuel false s with
      | none => none
      | some s1 => iterUntil ctx innerFuel fuel s1

/-- The outer driver loop over ranges. -/
def loadLoop (ctx : Ctx) (innerFuel : Nat) : Nat → LState → Option LState
  | 0, s => if s.rangeIdx < ctx.dbPrefixes.length then none else some s
  | fuel + 1, s =>
    if s.rangeIdx < ctx.dbPrefixes.length then
      match iterUntil ctx innerFuel (fuel + 1) s with
      | none => none
      | some s1 =>
        match dispatch s1 with
        | none => none
        | some s2 => loadLoop ctx innerFuel fuel { s2 with itemPresent := false }
    else some s

/-- LoadSubTries (flatdb_sub_trie_loader.go:528-587): the first iteration call,
then the driver loop.  The resulting SubTries output is the roots/hashes pair
of the final state. -/
def loadSubTries (ctx : Ctx) (fuel : Nat) (s : LState) : Option LState :=
  if ctx.dbPrefixes.length = 0 then some s
  else
    match iteration ctx fuel true s with
    | none => none
    | some s1 => loadLoop ctx fuel fuel s1

/-- A freshly constructed loader (NewFlatDbSubTrieLoader): the zero value of
the struct; the 40-byte account buffer and the 32-byte hash scratch are zero
filled. -/
def initialLoader : LState :=
  { rangeIdx := 0
    curr := []
    succ := []
    value := []
    groups := []
    a := Account.empty
    wasIH := false
    wasIHStorage := false
    currStorage := []
    succStorage := []
    valueStorage := []
    witnessLenAccount := 0
    witnessLenStorage := 0
    accAddrHashWithInc := List.replicate 40 0
    kv := none
    ihkv := none
    itemPresent := false
    itemType := .storage
    storageKeyPart1 := []
    storageKeyPart2 := []
    storageHash := []
    storageValue := []
    storageWitnessLen := 0
    accountKey := []
    accountHash := []
    accountValue := Account.empty
    streamCutoff := 0
    accountWitnessLen := 0
    accFieldSet := 0
    hashDataHash := List.replicate 32 0
    hb := []
    roots := []
    hashes := []
    cAdv := 0
    ihAdv := 0
    lastSHashWL := none
    lastAHashWL := none
    emittedKey := []
    cutoffEmits := 0
    cutoffsConsumed := 0 }

/-- Reset followed by LoadSubTries, as a caller performs one load. -/
def resetAndLoad (dbC dbIH dbIWL : DB) (rl : Bytes → Bool) (track : Bool)
    (dbPrefixes : List Bytes) (fixedbits : List Nat) (fuel : Nat) (s : LState) :
    Option LState :=
  loadSubTries (mkCtx dbC dbIH dbIWL rl track dbPrefixes fixedbits) fuel (resetLoader s)

/-! ### Concrete instances used in the closed theorems -/

/-- A 32-byte account key. -/
def keyAcct1 : Bytes := 1 :: List.replicate 31 0

/-- A store with one account and two one-byte ranges, the second empty. -/
def ctxTwoRanges : Ctx := mkCtx [(keyAcct1, [])] [] [] (fun _ => false) false [[1], [2]] [8, 8]

/-- Composite storage keys without a preceding account record. -/
def keyStorB : Bytes :=
  (1 :: List.replicate 31 0) ++ List.replicate 8 255 ++ (List.replicate 31 0 ++ [1])
def keyStorD1 : Bytes :=
  (2 :: List.replicate 31 0) ++ List.replicate 8 255 ++ (List.replicate 31 0 ++ [1])
def keyStorD2 : Bytes :=
  (2 :: List.replicate 31 0) ++ List.replicate 8 255 ++ (List.replicate 31 0 ++ [2])

/-- A store holding only composite storage keys, with a single unbounded range. -/
def dbOrphanStorage : DB := [(keyStorB, [9]), (keyStorD1, [7]), (keyStorD2, [8])]
def ctxOrphan : Ctx := mkCtx dbOrphanStorage [] [] (fun _ => false) false [[]] [0]

/-- Two pre-load states that differ only in accAddrHashWithInc. -/
def preLoadA : LState := initialLoader
def preLoadB : LState :=
  { initialLoader with accAddrHashWithInc := (2 :: List.replicate 31 0) ++ List.replicate 8 255 }

/-- A storage range with one cached storage hash in the IH bucket. -/
def addrS : Bytes := 3 :: List.replicate 31 0
def prefS : Bytes := addrS ++ List.replicate 8 255
def ihKeyS : Bytes := prefS ++ [5]
def ctxStorRange : Ctx := mkCtx [] [(ihKeyS, [1, 2])] [] (fun _ => false) false [prefS] [320]

/-- An IH bucket whose only key is entirely 0xff. -/
def ctxFF : Ctx := mkCtx [] [(List.replicate 32 255, [4])] [] (fun _ => false) false [[]] [0]

/-- The iterator locals and state right after the reconciliation loop of the
first iteration over ctxFF. -/
def c5l : Locals :=
  { isIH := true, minKey := some (List.replicate 32 255), fixedbytes := 0, cutoff := 0,
    dbPref := [], mask := 255, cmp := 0 }
def c5s : LState :=
  { resetLoader initialLoader with
    ihkv := some (List.replicate 32 255, [4])
    cAdv := 1
    ihAdv := 1 }
def c5s2 : LState := (iterPost ctxFF c5l c5s).getD initialLoader

/-- The state after the first iteration over the storage range with a cached
hash: it emits an SHashStreamItem. -/
def c4s2 : LState := (iteration ctxStorRange 40 true (resetLoader initialLoader)).getD initialLoader

/-! ### Invariant predicates used by the theorems -/

/-- The fields the reconciliation loop never writes (plus preservation of the
40-byte account-buffer length), together with the stream-item buffers it never
writes, and the item dichotomy: the loop leaves the pending item alone or
writes a cutoff item. -/
def keepL (s s2 : LState) : Prop :=
  s2.wasIH = s.wasIH ∧ s2.wasIHStorage = s.wasIHStorage ∧
  s2.witnessLenAccount = s.witnessLenAccount ∧ s2.witnessLenStorage = s.witnessLenStorage ∧
  s2.hb = s.hb ∧ s2.roots = s.roots ∧ s2.hashes = s.hashes ∧
  s2.cutoffsConsumed = s.cutoffsConsumed ∧
  (s.accAddrHashWithInc.length = 40 → s2.accAddrHashWithInc.length = 40) ∧
  s2.storageWitnessLen = s.storageWitnessLen ∧
  s2.accountWitnessLen = s.accountWitnessLen ∧
  s2.lastSHashWL = s.lastSHashWL ∧ s2.lastAHashWL = s.lastAHashWL ∧
  s2.emittedKey = s.emittedKey ∧
  s2.storageKeyPart1 = s.storageKeyPart1 ∧ s2.storageKeyPart2 = s.storageKeyPart2 ∧
  s2.storageHash = s.storageHash ∧ s2.storageValue = s.storageValue ∧
  s2.accountKey = s.accountKey ∧ s2.accountHash = s.accountHash ∧
  s2.accountValue = s.accountValue ∧
  ((s2.itemPresent = s.itemPresent ∧ s2.itemType = s.itemType) ∨
    (s2.itemPresent = true ∧ s2.itemType = .cutoff))

/-- The single consistent witness-length counter invariant, per trie level:
whenever the previous item at a level was a cached hash, the walker-side
counter, the item-buffer counter and the ghost record of the witness length
looked up for the most recent hash item of that level all agree. -/
def wlInv (s : LState) : Prop :=
  (s.wasIHStorage = true →
    s.witnessLenStorage = s.storageWitnessLen ∧ s.lastSHashWL = some s.storageWitnessLen) ∧
  (s.wasIH = true →
    s.witnessLenAccount = s.accountWitnessLen ∧ s.lastAHashWL = some s.accountWitnessLen)

/-- The witness-length agreement at a dispatch-side state.  The level
counters agree as in wlInv, except that a pending cached-hash item of a level
already carries the fresh lookup in its stream-item buffer while the walker
counter still holds the value for the hash item the next walker call is about
to flush. -/
def wlMid (s : LState) : Prop :=
  ((s.itemPresent = true ∧ s.itemType = .shash) ∨
    (s.wasIHStorage = true →
      s.witnessLenStorage = s.storageWitnessLen ∧
      s.lastSHashWL = some s.storageWitnessLen)) ∧
  ((s.itemPresent = true ∧ s.itemType = .shash) →
    s.lastSHashWL = some s.storageWitnessLen) ∧
  ((s.itemPresent = true ∧ s.itemType = .ahash) ∨
    (s.wasIH = true →
      s.witnessLenAccount = s.accountWitnessLen ∧
      s.lastAHashWL = some s.accountWitnessLen)) ∧
  ((s.itemPresent = true ∧ s.itemType = .ahash) →
    s.lastAHashWL = some s.accountWitnessLen)

/-- A concrete finaliseRoot call on a reset loader (account-level cutoff 2). -/
def c1fin : LState := (finaliseRoot 2 (resetLoader initialLoader)).getD initialLoader

/-- The state after the first iteration of the two-range load. -/
def c1s1 : LState :=
  (iteration ctxTwoRanges 30 true (resetLoader initialLoader)).getD initialLoader

/-- The state after the driver loop of the two-range load. -/
def c1end : LState := (loadLoop ctxTwoRanges 30 30 c1s1).getD initialLoader

/-! ## Theorems -/

theorem keyToNibbles_append (a b : Bytes) :
    keyToNibbles (a ++ b) = keyToNibbles a ++ keyToNibbles b := by
  induction a with
  | nil => rfl
  | cons x xs ih => simp [keyToNibbles, ih]

theorem keyToNibbles_length (k : Bytes) : (keyToNibbles k).length = 2 * k.length := by
  induction k with
  | nil => rfl
  | cons x xs ih => simp [keyToNibbles, ih]; omega

theorem natToBE_eq_nil_iff (v : Nat) : natToBE v = [] ↔ v = 0 := by
  constructor
  · intro h
    cases v with
    | zero => rfl
    | succ n => simp [natToBE] at h
  · intro h
    subst h
    simp [natToBE]

/-- C7: for every range, the derived nibble cutoff is fixedbits/4 when
fixedbits < 320 and fixedbits/4 - 16 when fixedbits is at least 320
(256 address bits plus 64 incarnation bits), accounting for the elided
incarnation; this is the cutoffs array Reset installs in the context. -/
theorem claim_C7_cutoff_derivation (dbC dbIH dbIWL : DB) (rl : Bytes → Bool) (track : Bool)
    (dbPrefixes : List Bytes) (fixedbits : List Nat) :
    (mkCtx dbC dbIH dbIWL rl track dbPrefixes fixedbits).cutoffs =
      fixedbits.map (fun bits => if bits < 320 then bits / 4 else bits / 4 - 16) := by
  show mkCutoffs fixedbits = _
  unfold mkCutoffs
  apply List.map_congr_left
  intro b _
  unfold cutoffOf
  split <;> split <;> omega

/-- C9: keyToNibblesWithoutInc writes two nibbles per byte (high nibble first)
for bytes 0..31, skips bytes 32..39 entirely, and writes two nibbles per byte
from byte 40 on; a 72-byte composite key yields exactly 128 nibbles. -/
theorem claim_C9_nibbles_skip_inc (k : Bytes) :
    keyToNibblesWithoutInc k = keyToNibbles (k.take 32 ++ k.drop 40) ∧
    keyToNibbles k = (k.map (fun b => [b / 16, b % 16])).flatten ∧
    (k.length = 72 → (keyToNibblesWithoutInc k).length = 128) := by
  refine ⟨?_, ?_, ?_⟩
  · unfold keyToNibblesWithoutInc
    rw [keyToNibbles_append]
    congr 1
    split
    · rfl
    · rename_i h
      rw [List.drop_eq_nil_of_le (by omega)]
      rfl
  · induction k with
    | nil => rfl
    | cons x xs ih => simp [keyToNibbles, ih]
  · intro h
    unfold keyToNibblesWithoutInc
    rw [if_pos (by omega)]
    simp [keyToNibbles_length, h]

/-- C9 witness: the general theorem evaluated at a concrete 72-byte key. -/
theorem claim_C9_nibbles_skip_inc_witness :
    (List.replicate 72 7 : Bytes).length = 72 ∧
    (keyToNibblesWithoutInc (List.replicate 72 7)).length = 128 :=
  ⟨by decide, (claim_C9_nibbles_skip_inc (List.replicate 72 7)).2.2 (by decide)⟩

/-- C8: when the track-witness-size flag is off the witness-length lookup
returns 0 without consulting the IntermediateTrieWitnessLen cursor; when the
flag is on and SeekTo does not land on a key exactly equal to the prefix
(including landing past the end for a nonempty prefix), it panics (none)
rather than returning a value. -/
theorem claim_C8_witness_len_lookup (iwl : DB) (p : Bytes) :
    getWitnessLen false iwl p = (false, some 0) ∧
    (∀ k v, seekToDB iwl p = some (k, v) → k ≠ p → (getWitnessLen true iwl p).2 = none) ∧
    (seekToDB iwl p = none → p ≠ [] → (getWitnessLen true iwl p).2 = none) := by
  refine ⟨rfl, ?_, ?_⟩
  · intro k v hseek hne
    simp [getWitnessLen, hseek, hne]
  · intro hseek hp
    simp [getWitnessLen, hseek, hp]

/-- C8 witness: the lookup theorem at a concrete bucket and prefix. -/
theorem claim_C8_witness_len_lookup_witness :
    getWitnessLen false [([2], [0, 0, 0, 0, 0, 0, 0, 9])] [1] = (false, some 0) ∧
    (getWitnessLen true [([2], [0, 0, 0, 0, 0, 0, 0, 9])] [1]).2 = none :=
  ⟨(claim_C8_witness_len_lookup [([2], [0, 0, 0, 0, 0, 0, 0, 9])] [1]).1,
   (claim_C8_witness_len_lookup [([2], [0, 0, 0, 0, 0, 0, 0, 9])] [1]).2.1
     [2] [0, 0, 0, 0, 0, 0, 0, 9] (by decide) (by decide)⟩

/-- C10: WriteAccountStorage leaves the PlainState bucket unchanged when the
original and new values are equal; when they differ it deletes the composite
key if the new value encodes to the empty byte string and writes the encoding
otherwise. -/
theorem claim_C10_write_account_storage (addr : Bytes) (inc : Nat) (key : Bytes)
    (original value : Nat) :
    (original = value →
      (writeAccountStorage addr inc key original value).filter
        (fun e => e.bucket == Bucket.plainState) = []) ∧
    (original ≠ value → value = 0 →
      (writeAccountStorage addr inc key original value).filter
        (fun e => e.bucket == Bucket.plainState) =
        [.del .plainState (plainCompositeStorageKey addr inc key)]) ∧
    (original ≠ value → value ≠ 0 →
      (writeAccountStorage addr inc key original value).filter
        (fun e => e.bucket == Bucket.plainState) =
        [.put .plainState (plainCompositeStorageKey addr inc key) (natToBE value)]) := by
  refine ⟨?_, ?_, ?_⟩
  · intro h
    simp [writeAccountStorage, cswWriteAccountStorage, h, DbEffect.bucket]
  · intro h hv
    subst hv
    simp [writeAccountStorage, cswWriteAccountStorage, h, natToBE, DbEffect.bucket]
  · intro h hv
    have hne : natToBE value ≠ [] := fun hc => hv ((natToBE_eq_nil_iff value).mp hc)
    simp [writeAccountStorage, cswWriteAccountStorage, h, hne, DbEffect.bucket]

/-- C10 witness: the writer theorem at concrete values, one per case. -/
theorem claim_C10_write_account_storage_witness :
    ((writeAccountStorage [1] 1 [2] 5 5).filter (fun e => e.bucket == Bucket.plainState) = []) ∧
    ((writeAccountStorage [1] 1 [2] 5 0).filter (fun e => e.bucket == Bucket.plainState) =
      [.del .plainState (plainCompositeStorageKey [1] 1 [2])]) ∧
    ((writeAccountStorage [1] 1 [2] 5 6).filter (fun e => e.bucket == Bucket.plainState) =
      [.put .plainState (plainCompositeStorageKey [1] 1 [2]) (natToBE 6)]) :=
  ⟨(claim_C10_write_account_storage [1] 1 [2] 5 5).1 rfl,
   (claim_C10_write_account_storage [1] 1 [2] 5 0).2.1 (by decide) rfl,
   (claim_C10_write_account_storage [1] 1 [2] 5 6).2.2 (by decide) (by decide)⟩

/-- C1 counterexample: with two requested ranges of which the second is empty,
a single reconciliation pass crosses both boundaries, overwrites the pending
cutoff item, and the resulting SubTries holds one root and one hash instead of
two of each. -/
theorem claim_C1_counterexample :
    ctxTwoRanges.dbPrefixes.length = 2 ∧
    (loadSubTries ctxTwoRanges 30 (resetLoader initialLoader)).map
      (fun s => (s.roots.length, s.hashes.length)) = some (1, 1) := by
  constructor
  · decide
  · decide

/-- C3 counterexample: a single first invocation of the step function over a
store beginning with composite storage keys advances the main cursor three
times (the range seek, the jump past the storage, and the wrong-account jump),
refuting at most one advance per cursor per step. -/
theorem claim_C3_counterexample :
    (resetLoader initialLoader).cAdv = 0 ∧
    (iteration ctxOrphan 30 true (resetLoader initialLoader)).map (fun s => s.cAdv) =
      some 3 := by
  constructor
  · decide
  · decide

/-- C6 counterexample: two Reset-then-LoadSubTries runs over the same store,
retention predicate, prefixes and fixedbits, starting from pre-states that
differ only in the accAddrHashWithInc left over from earlier loads, produce
different SubTries outputs. -/
theorem claim_C6_counterexample :
    preLoadB = { preLoadA with
      accAddrHashWithInc := (2 :: List.replicate 31 0) ++ List.replicate 8 255 } ∧
    (loadSubTries ctxOrphan 30 (resetLoader preLoadA)).map (fun s => (s.roots, s.hashes)) ≠
      (loadSubTries ctxOrphan 30 (resetLoader preLoadB)).map (fun s => (s.roots, s.hashes)) := by
  constructor
  · rfl
  · decide

/-- C6 amended: Reset-then-LoadSubTries is deterministic in the database
contents, retention predicate, prefixes and fixedbits provided the two runs
also agree on the loader fields Reset does not clear, notably
accAddrHashWithInc (plus the cursor keys, stream-item buffers, witness-length
counters, account field set and hash scratch). -/
theorem claim_C6_amended (s t : LState) (dbC dbIH dbIWL : DB) (rl : Bytes → Bool)
    (track : Bool) (dbPrefixes : List Bytes) (fixedbits : List Nat) (fuel : Nat)
    (h1 : s.accAddrHashWithInc = t.accAddrHashWithInc)
    (h2 : s.kv = t.kv) (h3 : s.ihkv = t.ihkv) (h4 : s.itemType = t.itemType)
    (h5 : s.storageKeyPart1 = t.storageKeyPart1) (h6 : s.storageKeyPart2 = t.storageKeyPart2)
    (h7 : s.storageHash = t.storageHash) (h8 : s.storageValue = t.storageValue)
    (h9 : s.storageWitnessLen = t.storageWitnessLen) (h10 : s.accountKey = t.accountKey)
    (h11 : s.accountHash = t.accountHash) (h12 : s.accountValue = t.accountValue)
    (h13 : s.streamCutoff = t.streamCutoff) (h14 : s.accountWitnessLen = t.accountWitnessLen)
    (h15 : s.accFieldSet = t.accFieldSet) (h16 : s.hashDataHash = t.hashDataHash)
    (h17 : s.witnessLenAccount = t.witnessLenAccount)
    (h18 : s.witnessLenStorage = t.witnessLenStorage)
    (h19 : s.lastSHashWL = t.lastSHashWL) (h20 : s.lastAHashWL = t.lastAHashWL)
    (h21 : s.emittedKey = t.emittedKey) :
    resetAndLoad dbC dbIH dbIWL rl track dbPrefixes fixedbits fuel s =
      resetAndLoad dbC dbIH dbIWL rl track dbPrefixes fixedbits fuel t := by
  have h : resetLoader s = resetLoader t := by
    cases s
    cases t
    simp_all [resetLoader]
  unfold resetAndLoad
  rw [h]

/-- C6 amended witness: the determinism theorem applied to two pre-states that
differ in a field Reset clears. -/
theorem claim_C6_amended_witness :
    resetAndLoad [] [] [] (fun _ => false) false [] [] 5 initialLoader =
      resetAndLoad [] [] [] (fun _ => false) false [] [] 5
        { initialLoader with curr := [1] } :=
  claim_C6_amended initialLoader { initialLoader with curr := [1] } [] [] []
    (fun _ => false) false [] [] 5 rfl rfl rfl rfl rfl rfl rfl rfl rfl rfl rfl rfl rfl
    rfl rfl rfl rfl rfl rfl rfl rfl

theorem incRevBytes_all_ff (l : Bytes) (hff : ∀ b ∈ l, b = 255) :
    incRevBytes l = none := by
  induction l with
  | nil => rfl
  | cons x xs ih =>
    have hx : x = 255 := hff x (by simp)
    simp [incRevBytes, hx, ih (fun b hb => hff b (by simp [hb]))]

theorem nextSubtree_all_ff (k : Bytes) (hff : ∀ b ∈ k, b = 255) :
    nextSubtree k = none := by
  unfold nextSubtree
  rw [incRevBytes_all_ff k.reverse (fun b hb => hff b (List.mem_reverse.mp hb))]
  rfl

/-- When the minimum key is absent and this is not the first call, the
reconciliation loop only crosses ranges: it never falls through, it leaves the
cursors untouched, and any state it returns carries either the untouched
pending item or a cutoff item. -/
theorem iterLoop_minKey_none (ctx : Ctx) :
    ∀ fuel (l : Locals) (s : LState), l.minKey = none → l.cmp ≠ 0 →
      (∀ l2 s2, iterLoop ctx false fuel l s ≠ .fall l2 s2) ∧
      (∀ s2, iterLoop ctx false fuel l s = .ret s2 →
        s2.kv = s.kv ∧ s2.ihkv = s.ihkv ∧
        ((s2.itemPresent = s.itemPresent ∧ s2.itemType = s.itemType) ∨
          (s2.itemPresent = true ∧ s2.itemType = .cutoff))) := by
  intro fuel
  induction fuel with
  | zero =>
    intro l s _ _
    constructor
    · intro l2 s2 h
      simp [iterLoop] at h
    · intro s2 h
      simp [iterLoop] at h
  | succ n ih =>
    intro l s hmin hcmp
    have hc : computeCmp false l = 1 := by
      simp [computeCmp, hmin]
    constructor
    · intro l2 s2 h
      simp only [iterLoop, if_neg hcmp, hc] at h
      norm_num at h
      split at h
      · exact absurd h (by simp)
      · exact (ih _ _ (by simpa using hmin) (by norm_num)).1 l2 s2 h
    · intro s2 h
      simp only [iterLoop, if_neg hcmp, hc] at h
      norm_num at h
      split at h
      · injection h with h
        subst h
        exact ⟨rfl, rfl, Or.inr ⟨rfl, rfl⟩⟩
      · obtain ⟨h1, h2, h3⟩ := (ih _ _ (by simpa using hmin) (by norm_num)).2 s2 h
        refine ⟨by simpa using h1, by simpa using h2, ?_⟩
        rcases h3 with ⟨hp, ht⟩ | hr
        · exact Or.inr ⟨by simpa using hp, by simpa using ht⟩
        · exact Or.inr hr

/-- With both cursor keys nil and no pending item, a non-first iteration can
only cross ranges: any item it produces is a cutoff item and the cursors stay
nil. -/
theorem iteration_nil_cursors (ctx : Ctx) (fuel : Nat) (t t2 : LState)
    (hk : t.kv = none) (hih : t.ihkv = none) (hi : t.itemPresent = false)
    (hit : iteration ctx fuel false t = some t2) (hp : t2.itemPresent = true) :
    t2.itemType = .cutoff ∧ t2.kv = none ∧ t2.ihkv = none := by
  unfold iteration at hit
  rw [hk, hih] at hit
  split at hit
  · rename_i hcon
    exact absurd hcon (by simp)
  · simp only [Option.map_none', keyIsBefore] at hit
    split at hit
    · simp at hit
    · rename_i s2 heq
      injection hit with hit
      subst hit
      obtain ⟨h1, h2, h3⟩ :=
        (iterLoop_minKey_none ctx fuel _ t rfl (by norm_num)).2 s2 heq
      rcases h3 with ⟨hp2, _⟩ | ⟨_, ht⟩
      · rw [hi] at hp2
        exact absurd (hp2.symm.trans hp) (by simp)
      · exact ⟨ht, by simp [h1, hk], by simp [h2, hih]⟩
    · rename_i l2 s2 heq
      exact absurd heq
        ((iterLoop_minKey_none ctx fuel _ t rfl (by norm_num)).1 l2 s2)

set_option maxHeartbeats 2000000 in
/-- C5: when a cached hash is emitted with ihK consisting entirely of 0xff
bytes (so nextSubtree overflows) and the retention predicate returned false
for its prefix, the loader sets both cursor keys to nil; from such a state any
further non-first step produces at most a cutoff item, so the range terminates
without emitting any further item from either cursor. -/
theorem claim_C5_overflow_termination (ctx : Ctx) (l : Locals) (s s2 : LState)
    (ihk ihv : Bytes)
    (hih : s.ihkv = some (ihk, ihv)) (hff : ∀ b ∈ ihk, b = 255)
    (hretain : ctx.rl (keyToNibblesWithoutInc ihk) = false)
    (hisih : l.isIH = true) (hmin : l.minKey = some ihk)
    (hnew : s.itemPresent = false)
    (hpost : iterPost ctx l s = some s2) (hemit : s2.itemPresent = true) :
    (s2.kv = none ∧ s2.ihkv = none) ∧
    (∀ fuel t2, iteration ctx fuel false { s2 with itemPresent := false } = some t2 →
      t2.itemPresent = true → t2.itemType = .cutoff ∧ t2.kv = none ∧ t2.ihkv = none) := by
  have hkey : ihKeyD s = ihk := by simp [ihKeyD, hih]
  have hjmp : (jumpIH ctx s).itemPresent = s.itemPresent := by
    unfold jumpIH
    rw [hih]
    dsimp only
    cases nextAccount ihk
    · rfl
    · rfl
  have hnil : s2.kv = none ∧ s2.ihkv = none := by
    unfold iterPost at hpost
    rw [hisih] at hpost
    simp only [Bool.not_true] at hpost
    rw [if_neg Bool.false_ne_true, hmin] at hpost
    simp only [Option.getD_some] at hpost
    split at hpost
    · injection hpost with h
      subst h
      rw [show (nextIH ctx s).itemPresent = s.itemPresent from rfl, hnew] at hemit
      exact absurd hemit (by simp)
    · split at hpost
      · injection hpost with h
        subst h
        rw [show (nextIH ctx s).itemPresent = s.itemPresent from rfl, hnew] at hemit
        exact absurd hemit (by simp)
      · split at hpost
        · split at hpost
          · injection hpost with h
            subst h
            rw [show (seekIH ctx s s.accAddrHashWithInc).itemPresent = s.itemPresent from rfl,
              hnew] at hemit
            exact absurd hemit (by simp)
          · injection hpost with h
            subst h
            rw [hjmp, hnew] at hemit
            exact absurd hemit (by simp)
        · have hkey2 : ihKeyD { s with itemPresent := true } = ihk := by
            simp [ihKeyD, hih]
          rw [hkey2, nextSubtree_all_ff ihk hff] at hpost
          split at hpost
          · exact absurd hpost (by simp)
          · dsimp only at hpost
            injection hpost with h
            subst h
            exact ⟨rfl, rfl⟩
  refine ⟨hnil, ?_⟩
  intro fuel t2 hit hp
  exact iteration_nil_cursors ctx fuel _ t2 (by simp [hnil.1]) (by simp [hnil.2])
    (by simp) hit hp

/-- C5 witness: the overflow theorem applied to a store whose only cached hash
key is 32 bytes of 0xff. -/
theorem claim_C5_overflow_termination_witness : c5s2.kv = none ∧ c5s2.ihkv = none :=
  (claim_C5_overflow_termination ctxFF c5l c5s c5s2 (List.replicate 32 255) [4]
    (by decide) (by decide) rfl rfl rfl (by decide) (by decide) (by decide)).1

theorem copyBytes_length (dst src : Bytes) : (copyBytes dst src).length = dst.length := by
  simp [copyBytes]

theorem keepL_rfl (s : LState) : keepL s s := by
  unfold keepL
  simp

theorem keepL_comp (a b c : LState) (h1 : keepL a b) (h2 : keepL b c) : keepL a c := by
  obtain ⟨w1, w2, w3, w4, w5, w6, w7, w8, w9, w10, w11, w12, w13, w14, w15, w16, w17, w18,
    w19, w20, w21, w22⟩ := h1
  obtain ⟨v1, v2, v3, v4, v5, v6, v7, v8, v9, v10, v11, v12, v13, v14, v15, v16, v17, v18,
    v19, v20, v21, v22⟩ := h2
  refine ⟨v1.trans w1, v2.trans w2, v3.trans w3, v4.trans w4, v5.trans w5, v6.trans w6,
    v7.trans w7, v8.trans w8, fun h => v9 (w9 h), v10.trans w10, v11.trans w11,
    v12.trans w12, v13.trans w13, v14.trans w14, v15.trans w15, v16.trans w16,
    v17.trans w17, v18.trans w18, v19.trans w19, v20.trans w20, v21.trans w21, ?_⟩
  rcases v22 with ⟨p, q⟩ | ⟨p, q⟩
  · rcases w22 with ⟨p2, q2⟩ | ⟨p2, q2⟩
    · exact Or.inl ⟨p.trans p2, q.trans q2⟩
    · exact Or.inr ⟨p.trans p2, q.trans q2⟩
  · exact Or.inr ⟨p, q⟩

theorem seekC_keepL (ctx : Ctx) (s : LState) (p : Bytes) : keepL s (seekC ctx s p) := by
  unfold keepL seekC
  simp

theorem nextC_keepL (ctx : Ctx) (s : LState) : keepL s (nextC ctx s) := by
  unfold keepL nextC
  simp

theorem seekIH_keepL (ctx : Ctx) (s : LState) (p : Bytes) : keepL s (seekIH ctx s p) := by
  unfold keepL seekIH
  simp

theorem nextIH_keepL (ctx : Ctx) (s : LState) : keepL s (nextIH ctx s) := by
  unfold keepL nextIH
  simp

theorem jumpC_keepL (ctx : Ctx) (s : LState) : keepL s (jumpC ctx s) := by
  unfold jumpC
  split
  · split
    · exact seekC_keepL ctx s _
    · unfold keepL
      simp
  · exact keepL_rfl s

theorem jumpIH_keepL (ctx : Ctx) (s : LState) : keepL s (jumpIH ctx s) := by
  unfold jumpIH
  split
  · split
    · exact seekIH_keepL ctx s _
    · unfold keepL
      simp
  · exact keepL_rfl s

theorem jumpC_ite_keepL (ctx : Ctx) (c : Prop) [Decidable c] (s : LState) :
    keepL s (if c then jumpC ctx s else s) := by
  split
  · exact jumpC_keepL ctx s
  · exact keepL_rfl s

theorem jumpIH_ite_keepL (ctx : Ctx) (c : Prop) [Decidable c] (s : LState) :
    keepL s (if c then jumpIH ctx s else s) := by
  split
  · exact jumpIH_keepL ctx s
  · exact keepL_rfl s

theorem acc_set_keepL (s : LState) (x : Bytes)
    (hx : s.accAddrHashWithInc.length = 40 → x.length = 40) :
    keepL s { s with accAddrHashWithInc := x } := by
  unfold keepL
  simpa using hx

theorem rangeSeekPass_keepL (ctx : Ctx) (first : Bool) (l : Locals) (s : LState) :
    keepL s (rangeSeekPass ctx first l s).2 := by
  unfold rangeSeekPass
  dsimp only
  refine keepL_comp _ _ _ (keepL_comp _ _ _ (keepL_comp _ _ _ (keepL_comp _ _ _
    (acc_set_keepL s _ ?_) (seekC_keepL _ _ _)) (jumpC_ite_keepL _ _ _))
    (seekIH_keepL _ _ _)) (jumpIH_ite_keepL _ _ _)
  intro h
  split
  · rw [copyBytes_length]
    exact h
  · exact h

/-- The reconciliation loop only repositions cursors, advances ranges and
possibly writes a cutoff item: every other field of the loader is untouched
(and the account-buffer length is preserved). -/
theorem iterLoop_keep (ctx : Ctx) (first : Bool) :
    ∀ fuel (l : Locals) (s : LState),
      (∀ s2, iterLoop ctx first fuel l s = .ret s2 → keepL s s2) ∧
      (∀ l2 s2, iterLoop ctx first fuel l s = .fall l2 s2 → keepL s s2) := by
  intro fuel
  induction fuel with
  | zero =>
    intro l s
    constructor
    · intro s2 h
      simp [iterLoop] at h
    · intro l2 s2 h
      simp [iterLoop] at h
  | succ n ih =>
    intro l s
    constructor
    · intro s2 h
      simp only [iterLoop] at h
      split at h
      · simp at h
      · split at h
        · injection h with h
          subst h
          exact keepL_rfl s
        · split at h
          · exact keepL_comp _ _ _ (rangeSeekPass_keepL ctx first l _) ((ih _ _).1 s2 h)
          · split at h
            · split at h <;> split at h <;>
                first
                  | exact keepL_comp _ _ _
                      (by unfold keepL
                          simp [apply_ite List.length, copyBytes_length, ite_self])
                      ((ih _ _).1 s2 h)
                  | (injection h with h
                     subst h
                     unfold keepL
                     simp)
                  | injection h
            · simp at h
    · intro l2 s2 h
      simp only [iterLoop] at h
      split at h
      · injection h with h1 h2
        subst h2
        exact keepL_rfl s
      · split at h
        · simp at h
        · split at h
          · exact keepL_comp _ _ _ (rangeSeekPass_keepL ctx first l _) ((ih _ _).2 l2 s2 h)
          · split at h
            · split at h <;> split at h <;>
                first
                  | exact keepL_comp _ _ _
                      (by unfold keepL
                          simp [apply_ite List.length, copyBytes_length, ite_self])
                      ((ih _ _).2 l2 s2 h)
                  | (injection h with h
                     subst h
                     unfold keepL
                     simp)
                  | injection h
            · injection h with h1 h2
              subst h2
              exact keepL_rfl s

theorem keepL_item (a b : LState) (h : keepL a b) :
    (b.itemPresent = a.itemPresent ∧ b.itemType = a.itemType) ∨
      (b.itemPresent = true ∧ b.itemType = .cutoff) :=
  h.2.2.2.2.2.2.2.2.2.2.2.2.2.2.2.2.2.2.2.2.2

theorem hasPref_take (k pre : Bytes) (h : hasPref k pre = true) :
    k.take pre.length = pre := by
  simpa [hasPref] using h

theorem hasPref_le (k pre : Bytes) (h : hasPref k pre = true) :
    pre.length ≤ k.length := by
  have ht := hasPref_take k pre h
  have := congrArg List.length ht
  simp at this
  omega

/-- Skipping the subtree moves only the cursors and the ghost advance
counters. -/
theorem skipSubtree_keep (ctx : Ctx) (nxt : Bytes) (t : LState) :
    (skipSubtree ctx nxt t).itemType = t.itemType ∧
    (skipSubtree ctx nxt t).itemPresent = t.itemPresent ∧
    (skipSubtree ctx nxt t).emittedKey = t.emittedKey ∧
    (skipSubtree ctx nxt t).storageKeyPart1 = t.storageKeyPart1 ∧
    (skipSubtree ctx nxt t).storageKeyPart2 = t.storageKeyPart2 ∧
    (skipSubtree ctx nxt t).accAddrHashWithInc = t.accAddrHashWithInc ∧
    (skipSubtree ctx nxt t).storageWitnessLen = t.storageWitnessLen ∧
    (skipSubtree ctx nxt t).lastSHashWL = t.lastSHashWL ∧
    (skipSubtree ctx nxt t).accountWitnessLen = t.accountWitnessLen ∧
    (skipSubtree ctx nxt t).lastAHashWL = t.lastAHashWL ∧
    (skipSubtree ctx nxt t).wasIH = t.wasIH ∧
    (skipSubtree ctx nxt t).wasIHStorage = t.wasIHStorage ∧
    (skipSubtree ctx nxt t).witnessLenAccount = t.witnessLenAccount ∧
    (skipSubtree ctx nxt t).witnessLenStorage = t.witnessLenStorage ∧
    (skipSubtree ctx nxt t).hb = t.hb ∧
    (skipSubtree ctx nxt t).roots = t.roots ∧
    (skipSubtree ctx nxt t).hashes = t.hashes ∧
    (skipSubtree ctx nxt t).cutoffsConsumed = t.cutoffsConsumed := by
  unfold skipSubtree jumpC jumpIH
  dsimp only
  repeat' split
  all_goals simp [seekC, seekIH]

theorem noEmitContra {s t : LState} (hmid : s.itemPresent = true → s.itemType = .cutoff)
    (hp : t.itemPresent = s.itemPresent) (ht : t.itemType = s.itemType)
    (he : t.itemPresent = true) (hne : t.itemType ≠ .cutoff) : False :=
  hne (ht.trans (hmid (hp.symm.trans he).symm.symm))

/-- The facts the emission phase guarantees: the walker-level fields and
outputs are untouched; a storage-level emission carries a key whose first 40
bytes are the account buffer, split into its two stored parts; a cached-hash
emission records the witness length it looked up in both the item buffer and
the ghost field; and the hash-item buffers change only on the corresponding
emission. -/
theorem iterPost_facts (ctx : Ctx) (l : Locals) (s s2 : LState)
    (hmid : s.itemPresent = true → s.itemType = .cutoff)
    (hpost : iterPost ctx l s = some s2) :
    s2.wasIH = s.wasIH ∧ s2.wasIHStorage = s.wasIHStorage ∧
    s2.witnessLenAccount = s.witnessLenAccount ∧
    s2.witnessLenStorage = s.witnessLenStorage ∧
    s2.hb = s.hb ∧ s2.roots = s.roots ∧ s2.hashes = s.hashes ∧
    s2.cutoffsConsumed = s.cutoffsConsumed ∧
    ((s2.itemPresent = true ∧ (s2.itemType = .storage ∨ s2.itemType = .shash)) →
      s.accAddrHashWithInc.length = 40 →
      s2.emittedKey.take 40 = s2.accAddrHashWithInc ∧ 32 < s2.emittedKey.length ∧
      s2.storageKeyPart1 = s2.emittedKey.take 32 ∧
      s2.storageKeyPart2 = s2.emittedKey.drop 40) ∧
    ((s2.itemPresent = true ∧ s2.itemType = .shash) →
      s2.lastSHashWL = some s2.storageWitnessLen) ∧
    ((s2.itemPresent = true ∧ s2.itemType = .ahash) →
      s2.lastAHashWL = some s2.accountWitnessLen) ∧
    ((s2.storageWitnessLen = s.storageWitnessLen ∧ s2.lastSHashWL = s.lastSHashWL) ∨
      (s2.itemPresent = true ∧ s2.itemType = .shash)) ∧
    ((s2.accountWitnessLen = s.accountWitnessLen ∧ s2.lastAHashWL = s.lastAHashWL) ∨
      (s2.itemPresent = true ∧ s2.itemType = .ahash)) := by
  unfold iterPost at hpost
  split at hpost
  · -- non-IH path
    split at hpost
    · -- wrong-account storage on the main cursor
      split at hpost
      · injection hpost with h
        subst h
        refine ⟨rfl, rfl, rfl, rfl, rfl, rfl, rfl, rfl, ?_, ?_, ?_, Or.inl ⟨rfl, rfl⟩,
          Or.inl ⟨rfl, rfl⟩⟩
        · rintro ⟨he, hty⟩
          exact (noEmitContra hmid rfl rfl he
            (by rcases hty with h | h <;> simp_all [seekC, seekIH, nextIH])).elim
        · rintro ⟨he, hty⟩
          exact (noEmitContra hmid rfl rfl he (by simp_all [seekC, seekIH, nextIH])).elim
        · rintro ⟨he, hty⟩
          exact (noEmitContra hmid rfl rfl he (by simp_all [seekC, seekIH, nextIH])).elim
      · injection hpost with h
        subst h
        obtain ⟨q1, q2, q3, q4, q5, q6, q7, q8, q9, q10, q11, q12, q13, q14, q15, q16,
          q17, q18, q19, q20, q21, q22⟩ := jumpC_keepL ctx s
        refine ⟨q1, q2, q3, q4, q5, q6, q7, q8, ?_, ?_, ?_, Or.inl ⟨q10, q12⟩,
          Or.inl ⟨q11, q13⟩⟩
        · rintro ⟨he, hty⟩
          rcases q22 with ⟨hp, ht⟩ | ⟨hp, ht⟩
          · exact (noEmitContra hmid hp ht he
              (by rcases hty with h | h <;> simp_all [seekC, seekIH, nextIH])).elim
          · rw [ht] at hty
            rcases hty with h | h <;> simp at h
        · rintro ⟨he, hty⟩
          rcases q22 with ⟨hp, ht⟩ | ⟨hp, ht⟩
          · exact (noEmitContra hmid hp ht he (by simp_all [seekC, seekIH, nextIH])).elim
          · rw [ht] at hty
            simp at hty
        · rintro ⟨he, hty⟩
          rcases q22 with ⟨hp, ht⟩ | ⟨hp, ht⟩
          · exact (noEmitContra hmid hp ht he (by simp_all [seekC, seekIH, nextIH])).elim
          · rw [ht] at hty
            simp at hty
    · -- emission from the main cursor
      rename_i hok
      dsimp only at hpost
      split at hpost
      · -- storage leaf
        rename_i hk32
        injection hpost with h
        subst h
        have hpref : hasPref (kKeyD s) s.accAddrHashWithInc = true := by
          by_contra hc
          simp only [Bool.not_eq_true] at hc
          exact hok ⟨by simpa [kLen, kKeyD] using hk32, by simp [hc]⟩
        refine ⟨rfl, rfl, rfl, rfl, rfl, rfl, rfl, rfl, ?_, ?_, ?_, Or.inl ⟨rfl, rfl⟩,
          Or.inl ⟨rfl, rfl⟩⟩
        · rintro ⟨-, -⟩
          intro hacc
          have htake := hasPref_take _ _ hpref
          rw [hacc] at htake
          have hge : 40 ≤ (kKeyD s).length := by
            have := hasPref_le _ _ hpref
            omega
          have h32 : 32 < (kKeyD s).length := by omega
          refine ⟨htake, h32, ?_, ?_⟩
          · show (if 32 ≤ (kKeyD s).length then (kKeyD s).take 32 else kKeyD s) =
              (kKeyD s).take 32
            rw [if_pos (by omega)]
          · show (if 32 ≤ (kKeyD s).length then
                (if 40 ≤ (kKeyD s).length then (kKeyD s).drop 40 else []) else []) =
              (kKeyD s).drop 40
            rw [if_pos (by omega), if_pos (by omega)]
        · rintro ⟨-, hty⟩
          simp [nextC] at hty
        · rintro ⟨-, hty⟩
          simp [nextC] at hty
      · -- account leaf
        split at hpost
        · simp at hpost
        · split at hpost
          · simp at hpost
          · rename_i acct hdec
            injection hpost with h
            subst h
            constructor
            · split <;> simp [seekC, seekIH]
            constructor
            · split <;> simp [seekC, seekIH]
            constructor
            · split <;> simp [seekC, seekIH]
            constructor
            · split <;> simp [seekC, seekIH]
            constructor
            · split <;> simp [seekC, seekIH]
            constructor
            · split <;> simp [seekC, seekIH]
            constructor
            · split <;> simp [seekC, seekIH]
            constructor
            · split <;> simp [seekC, seekIH]
            constructor
            · rintro ⟨-, hty⟩
              have : StreamItem.account = StreamItem.storage ∨
                  StreamItem.account = StreamItem.shash := by
                rcases hty with h | h
                · exact Or.inl (by rw [← h]; split <;> simp [seekC, seekIH])
                · exact Or.inr (by rw [← h]; split <;> simp [seekC, seekIH])
              rcases this with h | h <;> simp at h
            constructor
            · rintro ⟨-, hty⟩
              have : StreamItem.account = StreamItem.shash := by
                rw [← hty]
                split <;> simp [seekC, seekIH]
              simp at this
            constructor
            · rintro ⟨-, hty⟩
              have : StreamItem.account = StreamItem.ahash := by
                rw [← hty]
                split <;> simp [seekC, seekIH]
              simp at this
            constructor
            · exact Or.inl ⟨by split <;> simp [seekC, seekIH], by split <;> simp [seekC, seekIH]⟩
            · exact Or.inl ⟨by split <;> simp [seekC, seekIH], by split <;> simp [seekC, seekIH]⟩
  · -- IH path
    dsimp only at hpost
    split at hpost
    · -- descend to children: shallower than the cutoff
      injection hpost with h
      subst h
      refine ⟨rfl, rfl, rfl, rfl, rfl, rfl, rfl, rfl, ?_, ?_, ?_, Or.inl ⟨rfl, rfl⟩,
        Or.inl ⟨rfl, rfl⟩⟩
      · rintro ⟨he, hty⟩
        exact (noEmitContra hmid rfl rfl he
            (by rcases hty with h | h <;> simp_all [seekC, seekIH, nextIH])).elim
      · rintro ⟨he, hty⟩
        exact (noEmitContra hmid rfl rfl he (by simp_all [seekC, seekIH, nextIH])).elim
      · rintro ⟨he, hty⟩
        exact (noEmitContra hmid rfl rfl he (by simp_all [seekC, seekIH, nextIH])).elim
    · split at hpost
      · -- descend to children: retained prefix
        injection hpost with h
        subst h
        refine ⟨rfl, rfl, rfl, rfl, rfl, rfl, rfl, rfl, ?_, ?_, ?_, Or.inl ⟨rfl, rfl⟩,
          Or.inl ⟨rfl, rfl⟩⟩
        · rintro ⟨he, hty⟩
          exact (noEmitContra hmid rfl rfl he
            (by rcases hty with h | h <;> simp_all [seekC, seekIH, nextIH])).elim
        · rintro ⟨he, hty⟩
          exact (noEmitContra hmid rfl rfl he (by simp_all [seekC, seekIH, nextIH])).elim
        · rintro ⟨he, hty⟩
          exact (noEmitContra hmid rfl rfl he (by simp_all [seekC, seekIH, nextIH])).elim
      · split at hpost
        · -- wrong-account storage on the intermediate-hash cursor
          split at hpost
          · injection hpost with h
            subst h
            refine ⟨rfl, rfl, rfl, rfl, rfl, rfl, rfl, rfl, ?_, ?_, ?_, Or.inl ⟨rfl, rfl⟩,
              Or.inl ⟨rfl, rfl⟩⟩
            · rintro ⟨he, hty⟩
              exact (noEmitContra hmid rfl rfl he
                (by rcases hty with h | h <;> simp_all [seekC, seekIH, nextIH])).elim
            · rintro ⟨he, hty⟩
              exact (noEmitContra hmid rfl rfl he (by simp_all [seekC, seekIH, nextIH])).elim
            · rintro ⟨he, hty⟩
              exact (noEmitContra hmid rfl rfl he (by simp_all [seekC, seekIH, nextIH])).elim
          · injection hpost with h
            subst h
            obtain ⟨q1, q2, q3, q4, q5, q6, q7, q8, q9, q10, q11, q12, q13, q14, q15, q16,
              q17, q18, q19, q20, q21, q22⟩ := jumpIH_keepL ctx s
            refine ⟨q1, q2, q3, q4, q5, q6, q7, q8, ?_, ?_, ?_, Or.inl ⟨q10, q12⟩,
              Or.inl ⟨q11, q13⟩⟩
            · rintro ⟨he, hty⟩
              rcases q22 with ⟨hp, ht⟩ | ⟨hp, ht⟩
              · exact (noEmitContra hmid hp ht he
                  (by rcases hty with h | h <;> simp_all [seekC, seekIH, nextIH])).elim
              · rw [ht] at hty
                rcases hty with h | h <;> simp at h
            · rintro ⟨he, hty⟩
              rcases q22 with ⟨hp, ht⟩ | ⟨hp, ht⟩
              · exact (noEmitContra hmid hp ht he (by simp_all [seekC, seekIH, nextIH])).elim
              · rw [ht] at hty
                simp at hty
            · rintro ⟨he, hty⟩
              rcases q22 with ⟨hp, ht⟩ | ⟨hp, ht⟩
              · exact (noEmitContra hmid hp ht he (by simp_all [seekC, seekIH, nextIH])).elim
              · rw [ht] at hty
                simp at hty
        · -- cached-hash emission
          rename_i hok
          have hpref : 32 < ihLen s → hasPref (ihKeyD s) s.accAddrHashWithInc = true := by
            intro h32
            by_contra hc
            simp only [Bool.not_eq_true] at hc
            exact hok ⟨h32, by simp [hc]⟩
          split at hpost
          · simp at hpost
          · rename_i se hse
            split at hpost
            · -- overflow: both cursors are parked on nil
              injection hpost with h
              subst h
              split at hse
              · -- storage-level cached hash
                rename_i hk32
                split at hse
                · exact absurd hse (by simp)
                · injection hse with hse
                  subst hse
                  refine ⟨rfl, rfl, rfl, rfl, rfl, rfl, rfl, rfl, ?_, ?_, ?_,
                    Or.inr ⟨rfl, rfl⟩, Or.inl ⟨rfl, rfl⟩⟩
                  · rintro ⟨-, -⟩
                    intro hacc
                    have h32 : 32 < ihLen s := by simpa [ihLen, ihKeyD] using hk32
                    have hp := hpref h32
                    have htake := hasPref_take _ _ hp
                    rw [hacc] at htake
                    have hge : 40 ≤ (ihKeyD s).length := by
                      have := hasPref_le _ _ hp
                      omega
                    refine ⟨by simpa [ihKeyD] using htake,
                      by simpa [ihLen, ihKeyD] using h32, ?_, ?_⟩
                    · show (if 32 ≤ (ihKeyD s).length then (ihKeyD s).take 32
                        else ihKeyD s) = (ihKeyD s).take 32
                      rw [if_pos (by omega)]
                    · show (if 32 ≤ (ihKeyD s).length then
                          (if 40 ≤ (ihKeyD s).length then (ihKeyD s).drop 40 else [])
                        else []) = (ihKeyD s).drop 40
                      rw [if_pos (by omega), if_pos (by omega)]
                  · rintro ⟨-, -⟩
                    rfl
                  · rintro ⟨-, hty⟩
                    simp at hty
              · -- account-level cached hash
                split at hse
                · exact absurd hse (by simp)
                · injection hse with hse
                  subst hse
                  refine ⟨rfl, rfl, rfl, rfl, rfl, rfl, rfl, rfl, ?_, ?_, ?_,
                    Or.inl ⟨rfl, rfl⟩, Or.inr ⟨rfl, rfl⟩⟩
                  · rintro ⟨-, hty⟩
                    rcases hty with h | h <;> simp at h
                  · rintro ⟨-, hty⟩
                    simp at hty
                  · rintro ⟨-, -⟩
                    rfl
            · -- reposition both cursors past the subtree
              rename_i nxt hnxt
              injection hpost with h
              subst h
              obtain ⟨k1, k2, k3, k4, k5, k6, k7, k8, k9, k10, k11, k12, k13, k14, k15,
                k16, k17, k18⟩ := skipSubtree_keep ctx nxt se
              split at hse
              · -- storage-level cached hash
                rename_i hk32
                split at hse
                · exact absurd hse (by simp)
                · injection hse with hse
                  subst hse
                  refine ⟨by rw [k11], by rw [k12], by rw [k13], by rw [k14], by rw [k15],
                    by rw [k16], by rw [k17], by rw [k18], ?_, ?_, ?_,
                    Or.inr ⟨by rw [k2], by rw [k1]⟩, Or.inl ⟨by rw [k9], by rw [k10]⟩⟩
                  · rintro ⟨-, -⟩
                    intro hacc
                    have h32 : 32 < ihLen s := by simpa [ihLen, ihKeyD] using hk32
                    have hp := hpref h32
                    have htake := hasPref_take _ _ hp
                    rw [hacc] at htake
                    have hge : 40 ≤ (ihKeyD s).length := by
                      have := hasPref_le _ _ hp
                      omega
                    rw [k3, k4, k5, k6]
                    refine ⟨by simpa [ihKeyD] using htake,
                      by simpa [ihLen, ihKeyD] using h32, ?_, ?_⟩
                    · show (if 32 ≤ (ihKeyD s).length then (ihKeyD s).take 32
                        else ihKeyD s) = (ihKeyD s).take 32
                      rw [if_pos (by omega)]
                    · show (if 32 ≤ (ihKeyD s).length then
                          (if 40 ≤ (ihKeyD s).length then (ihKeyD s).drop 40 else [])
                        else []) = (ihKeyD s).drop 40
                      rw [if_pos (by omega), if_pos (by omega)]
                  · rintro ⟨-, -⟩
                    rw [k8, k7]
                  · rintro ⟨-, hty⟩
                    rw [k1] at hty
                    simp at hty
              · -- account-level cached hash
                split at hse
                · exact absurd hse (by simp)
                · injection hse with hse
                  subst hse
                  refine ⟨by rw [k11], by rw [k12], by rw [k13], by rw [k14], by rw [k15],
                    by rw [k16], by rw [k17], by rw [k18], ?_, ?_, ?_,
                    Or.inl ⟨by rw [k7], by rw [k8]⟩, Or.inr ⟨by rw [k2], by rw [k1]⟩⟩
                  · rintro ⟨-, hty⟩
                    rw [k1] at hty
                    rcases hty with h | h <;> simp at h
                  · rintro ⟨-, hty⟩
                    rw [k1] at hty
                    simp at hty
                  · rintro ⟨-, -⟩
                    rw [k10, k9]

/-- C4: whenever iteration emits a StorageStreamItem or SHashStreamItem, the
emitted key is longer than 32 bytes, its first 40 bytes equal
accAddrHashWithInc (the current account hash followed by the complemented
big-endian incarnation), and the stored parts are exactly bytes 0..31 and
40.. of that key; items under any other account or incarnation are never
emitted. -/
theorem claim_C4_storage_under_account (ctx : Ctx) (fuel : Nat) (first : Bool)
    (s s2 : LState)
    (hlen : s.accAddrHashWithInc.length = 40)
    (hnew : s.itemPresent = false)
    (hit : iteration ctx fuel first s = some s2)
    (hemit : s2.itemPresent = true)
    (hty : s2.itemType = .storage ∨ s2.itemType = .shash) :
    s2.emittedKey.take 40 = s2.accAddrHashWithInc ∧ 32 < s2.emittedKey.length ∧
    s2.storageKeyPart1 = s2.emittedKey.take 32 ∧
    s2.storageKeyPart2 = s2.emittedKey.drop 40 := by
  unfold iteration at hit
  dsimp only at hit
  split at hit
  · simp at hit
  · rename_i sr heq
    injection hit with hit
    subst hit
    have hk := (iterLoop_keep ctx first fuel _ s).1 sr heq
    rcases keepL_item _ _ hk with ⟨hp, ht⟩ | ⟨hp, ht⟩
    · rw [hp, hnew] at hemit
      exact absurd hemit (by simp)
    · rcases hty with h | h <;> rw [ht] at h <;> simp at h
  · rename_i l2 smid heq
    have hk := (iterLoop_keep ctx first fuel _ s).2 l2 smid heq
    have hmid : smid.itemPresent = true → smid.itemType = .cutoff := by
      rcases keepL_item _ _ hk with ⟨hp, ht⟩ | ⟨hp, ht⟩
      · intro h
        rw [hp, hnew] at h
        exact absurd h (by simp)
      · intro _
        exact ht
    have hmlen : smid.accAddrHashWithInc.length = 40 :=
      hk.2.2.2.2.2.2.2.2.1 hlen
    exact (iterPost_facts ctx l2 smid s2 hmid hit).2.2.2.2.2.2.2.2.1 ⟨hemit, hty⟩ hmlen

/-- C4 witness: the theorem applied to the first iteration over a storage
range whose intermediate-hash bucket holds one cached storage hash. -/
theorem claim_C4_storage_under_account_witness :
    c4s2.emittedKey.take 40 = c4s2.accAddrHashWithInc ∧ 32 < c4s2.emittedKey.length ∧
    c4s2.storageKeyPart1 = c4s2.emittedKey.take 32 ∧
    c4s2.storageKeyPart2 = c4s2.emittedKey.drop 40 :=
  claim_C4_storage_under_account ctxStorRange 40 true (resetLoader initialLoader) c4s2
    (by decide) (by decide) (by decide) (by decide) (by decide)

theorem skipSubtree_adv (ctx : Ctx) (nxt : Bytes) (t : LState) :
    (skipSubtree ctx nxt t).cAdv ≤ t.cAdv + 2 ∧
    (skipSubtree ctx nxt t).ihAdv ≤ t.ihAdv + 2 := by
  unfold skipSubtree jumpC jumpIH
  dsimp only
  repeat' split
  all_goals simp [seekC, seekIH]

/-- C3 amended: within a single step, each range-positioning pass of the
reconciliation loop advances each cursor at most twice (one seek plus at most
one jump past storage), and the emission phase advances each cursor at most
twice; a single invocation is therefore not bounded by one advance per
cursor. -/
theorem claim_C3_amended (ctx : Ctx) :
    (∀ (first : Bool) (l : Locals) (s : LState),
      (rangeSeekPass ctx first l s).2.cAdv ≤ s.cAdv + 2 ∧
      (rangeSeekPass ctx first l s).2.ihAdv ≤ s.ihAdv + 2) ∧
    (∀ (l : Locals) (s s2 : LState), iterPost ctx l s = some s2 →
      s2.cAdv ≤ s.cAdv + 2 ∧ s2.ihAdv ≤ s.ihAdv + 2) := by
  constructor
  · intro first l s
    unfold rangeSeekPass jumpC jumpIH
    dsimp only
    repeat' split
    all_goals simp [seekC, seekIH]
  · intro l s s2 hpost
    unfold iterPost at hpost
    split at hpost
    · split at hpost
      · split at hpost
        · injection hpost with h
          subst h
          simp [seekC]
        · injection hpost with h
          subst h
          unfold jumpC
          repeat' split
          all_goals simp [seekC]
      · dsimp only at hpost
        split at hpost
        · injection hpost with h
          subst h
          simp [nextC]
        · split at hpost
          · simp at hpost
          · split at hpost
            · simp at hpost
            · injection hpost with h
              subst h
              split
              all_goals simp [seekC, seekIH]
    · dsimp only at hpost
      split at hpost
      · injection hpost with h
        subst h
        simp [nextIH]
      · split at hpost
        · injection hpost with h
          subst h
          simp [nextIH]
        · split at hpost
          · split at hpost
            · injection hpost with h
              subst h
              simp [seekIH]
            · injection hpost with h
              subst h
              unfold jumpIH
              repeat' split
              all_goals simp [seekIH]
          · split at hpost
            · simp at hpost
            · rename_i se hse
              split at hpost
              · injection hpost with h
                subst h
                split at hse
                · split at hse
                  · exact absurd hse (by simp)
                  · injection hse with hse
                    subst hse
                    simp
                · split at hse
                  · exact absurd hse (by simp)
                  · injection hse with hse
                    subst hse
                    simp
              · injection hpost with h
                subst h
                split at hse
                · split at hse
                  · exact absurd hse (by simp)
                  · injection hse with hse
                    subst hse
                    exact skipSubtree_adv ctx _ _
                · split at hse
                  · exact absurd hse (by simp)
                  · injection hse with hse
                    subst hse
                    exact skipSubtree_adv ctx _ _

/-- C3 amended witness: the bounds applied to a concrete pass and a concrete
emission phase. -/
theorem claim_C3_amended_witness :
    ((rangeSeekPass ctxOrphan true
        { isIH := false, minKey := none, fixedbytes := 0, cutoff := 0, dbPref := [],
          mask := 255, cmp := -1 }
        (resetLoader initialLoader)).2.cAdv ≤ (resetLoader initialLoader).cAdv + 2) ∧
    (c5s2.cAdv ≤ c5s.cAdv + 2 ∧ c5s2.ihAdv ≤ c5s.ihAdv + 2) :=
  ⟨((claim_C3_amended ctxOrphan).1 true
      { isIH := false, minKey := none, fixedbytes := 0, cutoff := 0, dbPref := [],
        mask := 255, cmp := -1 }
      (resetLoader initialLoader)).1,
   (claim_C3_amended ctxFF).2 c5l c5s c5s2 (by decide)⟩

theorem finaliseStorageRoot_out (c : Nat) (s : LState) (b : Bool) (t : LState)
    (h : finaliseStorageRoot c s = some (b, t)) :
    t.roots = s.roots ∧ t.hashes = s.hashes ∧ t.cutoffsConsumed = s.cutoffsConsumed ∧
    (t.wasIHStorage = false ∨ t.wasIHStorage = s.wasIHStorage) ∧
    t.wasIH = s.wasIH ∧
    t.witnessLenStorage = s.witnessLenStorage ∧
    t.storageWitnessLen = s.storageWitnessLen ∧
    t.lastSHashWL = s.lastSHashWL ∧
    t.witnessLenAccount = s.witnessLenAccount ∧
    t.accountWitnessLen = s.accountWitnessLen ∧
    t.lastAHashWL = s.lastAHashWL := by
  unfold finaliseStorageRoot at h
  dsimp only at h
  split at h
  · split at h
    · simp at h
    · split at h <;>
      · injection h with h
        injection h with h1 h2
        subst h2
        simp
  · injection h with h
    injection h with h1 h2
    subst h2
    simp

theorem walkerStorage_out (isIH : Bool) (p1 p2 v hsh : Bytes) (wl : Nat) (s : LState) :
    (walkerStorage isIH p1 p2 v hsh wl s).roots = s.roots ∧
    (walkerStorage isIH p1 p2 v hsh wl s).hashes = s.hashes ∧
    (walkerStorage isIH p1 p2 v hsh wl s).cutoffsConsumed = s.cutoffsConsumed ∧
    (walkerStorage isIH p1 p2 v hsh wl s).wasIHStorage = isIH ∧
    (walkerStorage isIH p1 p2 v hsh wl s).witnessLenStorage =
      (if isIH then wl else s.witnessLenStorage) ∧
    (walkerStorage isIH p1 p2 v hsh wl s).storageWitnessLen = s.storageWitnessLen ∧
    (walkerStorage isIH p1 p2 v hsh wl s).lastSHashWL = s.lastSHashWL ∧
    (walkerStorage isIH p1 p2 v hsh wl s).wasIH = s.wasIH ∧
    (walkerStorage isIH p1 p2 v hsh wl s).witnessLenAccount = s.witnessLenAccount ∧
    (walkerStorage isIH p1 p2 v hsh wl s).accountWitnessLen = s.accountWitnessLen ∧
    (walkerStorage isIH p1 p2 v hsh wl s).lastAHashWL = s.lastAHashWL := by
  unfold walkerStorage
  dsimp only
  repeat' split
  all_goals simp

theorem walkerAccount_out (isIH : Bool) (k : Bytes) (v : Account) (hsh : Bytes) (wl : Nat)
    (s s2 : LState) (hw : walkerAccount isIH k v hsh wl s = some s2) :
    s2.roots = s.roots ∧ s2.hashes = s.hashes ∧ s2.cutoffsConsumed = s.cutoffsConsumed ∧
    (s2.wasIHStorage = false ∨ s2.wasIHStorage = s.wasIHStorage) ∧
    s2.witnessLenStorage = s.witnessLenStorage ∧
    s2.storageWitnessLen = s.storageWitnessLen ∧
    s2.lastSHashWL = s.lastSHashWL ∧
    s2.wasIH = isIH ∧
    s2.witnessLenAccount = (if isIH then wl else s.witnessLenAccount) ∧
    s2.accountWitnessLen = s.accountWitnessLen ∧
    s2.lastAHashWL = s.lastAHashWL := by
  unfold walkerAccount at hw
  dsimp only at hw
  split at hw
  · simp at hw
  · rename_i sf heq
    have hsf : sf.roots = s.roots ∧ sf.hashes = s.hashes ∧
        sf.cutoffsConsumed = s.cutoffsConsumed ∧
        (sf.wasIHStorage = false ∨ sf.wasIHStorage = s.wasIHStorage) ∧
        sf.witnessLenStorage = s.witnessLenStorage ∧
        sf.storageWitnessLen = s.storageWitnessLen ∧
        sf.lastSHashWL = s.lastSHashWL ∧
        sf.wasIH = s.wasIH ∧
        sf.witnessLenAccount = s.witnessLenAccount ∧
        sf.accountWitnessLen = s.accountWitnessLen ∧
        sf.lastAHashWL = s.lastAHashWL := by
      split at heq
      · -- the previous account is flushed
        split at heq
        · simp at heq
        · rename_i data s3 hds
          injection heq with heq
          subst heq
          split at hds
          · -- previous account item was a cached hash
            injection hds with hds
            injection hds with hd1 hd2
            subst hd2
            simp
          · -- previous was a leaf: close its storage trie first
            split at hds
            · simp at hds
            · rename_i ok s1 hfsr
              obtain ⟨f1, f2, f3, f4, f5, f6, f7, f8, f9, f10, f11⟩ :=
                finaliseStorageRoot_out 64 _ ok s1 hfsr
              injection hds with hds
              injection hds with hd1 hd2
              subst hd2
              simp_all
      · injection heq with heq
        subst heq
        simp
    obtain ⟨g1, g2, g3, g4, g5, g6, g7, g8, g9, g10, g11⟩ := hsf
    split at hw
    · rename_i hih
      injection hw with hw
      subst hw
      refine ⟨by simp [g1], by simp [g2], by simp [g3], ?_, by simp [g5], by simp [g6],
        by simp [g7], by simp [hih], by simp [hih], by simp [g10], by simp [g11]⟩
      rcases g4 with g4 | g4
      · exact Or.inl (by simp [g4])
      · exact Or.inr (by simp [g4])
    · rename_i hih
      have hihf : isIH = false := by
        cases isIH
        · rfl
        · exact absurd rfl hih
      split at hw
      · injection hw with hw
        subst hw
        refine ⟨by simp [g1], by simp [g2], by simp [g3], ?_, by simp [g5], by simp [g6],
          by simp [g7], by simp [hihf], by simp [hihf, g9], by simp [g10], by simp [g11]⟩
        rcases g4 with g4 | g4
        · exact Or.inl (by simp [g4])
        · exact Or.inr (by simp [g4])
      · injection hw with hw
        subst hw
        refine ⟨by simp [g1], by simp [g2], by simp [g3], ?_, by simp [g5], by simp [g6],
          by simp [g7], by simp [hihf], by simp [hihf, g9], by simp [g10], by simp [g11]⟩
        rcases g4 with g4 | g4
        · exact Or.inl (by simp [g4])
        · exact Or.inr (by simp [g4])

theorem finaliseRoot_out (c : Nat) (s s2 : LState) (h : finaliseRoot c s = some s2) :
    s2.roots.length = s.roots.length + 1 ∧ s2.hashes.length = s.hashes.length + 1 ∧
    s2.cutoffsConsumed = s.cutoffsConsumed ∧
    (s2.wasIHStorage = false ∨ s2.wasIHStorage = s.wasIHStorage) ∧
    (s2.wasIH = false ∨ s2.wasIH = s.wasIH) ∧
    s2.witnessLenStorage = s.witnessLenStorage ∧
    s2.storageWitnessLen = s.storageWitnessLen ∧
    s2.lastSHashWL = s.lastSHashWL ∧
    s2.witnessLenAccount = s.witnessLenAccount ∧
    s2.accountWitnessLen = s.accountWitnessLen ∧
    s2.lastAHashWL = s.lastAHashWL := by
  unfold finaliseRoot at h
  split at h
  · -- pure storage case
    split at h
    · simp at h
    · rename_i hfsr
      obtain ⟨f1, f2, f3, f4, f5, f6, f7, f8, f9, f10, f11⟩ :=
        finaliseStorageRoot_out _ _ _ _ hfsr
      split at h <;>
      · injection h with h
        subst h
        refine ⟨by simp [f1], by simp [f2], by simp [f3], ?_, Or.inr (by simp [f5]),
          by simp [f6], by simp [f7], by simp [f8], by simp [f9], by simp [f10],
          by simp [f11]⟩
        rcases f4 with f4 | f4
        · exact Or.inl (by simp [f4])
        · exact Or.inr (by simp [f4])
  · -- account-level case
    dsimp only at h
    split at h
    · simp at h
    · rename_i sf heq
      have hsf : sf.roots = s.roots ∧ sf.hashes = s.hashes ∧
          sf.cutoffsConsumed = s.cutoffsConsumed ∧
          (sf.wasIHStorage = false ∨ sf.wasIHStorage = s.wasIHStorage) ∧
          sf.wasIH = s.wasIH ∧
          sf.witnessLenStorage = s.witnessLenStorage ∧
          sf.storageWitnessLen = s.storageWitnessLen ∧
          sf.lastSHashWL = s.lastSHashWL ∧
          sf.witnessLenAccount = s.witnessLenAccount ∧
          sf.accountWitnessLen = s.accountWitnessLen ∧
          sf.lastAHashWL = s.lastAHashWL := by
        split at heq
        · -- flush the pending account
          split at heq
          · simp at heq
          · split at heq
            · simp at heq
            · rename_i data s3 hds
              injection heq with heq
              subst heq
              split at hds
              · -- previous account item was a cached hash
                injection hds with hds
                injection hds with hd1 hd2
                subst hd2
                simp
              · -- previous was a leaf: close its storage trie first
                split at hds
                · simp at hds
                · rename_i ok s1 hfsr
                  obtain ⟨f1, f2, f3, f4, f5, f6, f7, f8, f9, f10, f11⟩ :=
                    finaliseStorageRoot_out _ _ _ _ hfsr
                  injection hds with hds
                  injection hds with hd1 hd2
                  subst hd2
                  simp_all
        · injection heq with heq
          subst heq
          simp
      obtain ⟨g1, g2, g3, g4, g5, g6, g7, g8, g9, g10, g11⟩ := hsf
      injection h with h
      subst h
      refine ⟨by simp [g1], by simp [g2], by simp [g3], Or.inl (by simp),
        Or.inl (by simp), by simp [g6], by simp [g7], by simp [g8], by simp [g9],
        by simp [g10], by simp [g11]⟩

/-- One iteration from an item-free state leaves the SubTries output and the
consumed-cutoff counter untouched. -/
theorem iteration_frame (ctx : Ctx) (fuel : Nat) (first : Bool) (s s2 : LState)
    (hnew : s.itemPresent = false) (hit : iteration ctx fuel first s = some s2) :
    s2.roots = s.roots ∧ s2.hashes = s.hashes ∧ s2.cutoffsConsumed = s.cutoffsConsumed := by
  unfold iteration at hit
  dsimp only at hit
  split at hit
  · simp at hit
  · rename_i sr heq
    injection hit with hit
    subst hit
    have hk := (iterLoop_keep ctx first fuel _ s).1 sr heq
    exact ⟨hk.2.2.2.2.2.1, hk.2.2.2.2.2.2.1, hk.2.2.2.2.2.2.2.1⟩
  · rename_i l2 smid heq
    have hk := (iterLoop_keep ctx first fuel _ s).2 l2 smid heq
    have hmid : smid.itemPresent = true → smid.itemType = .cutoff := by
      rcases keepL_item _ _ hk with ⟨hp, ht⟩ | ⟨hp, ht⟩
      · intro h
        rw [hp, hnew] at h
        exact absurd h (by simp)
      · intro _
        exact ht
    obtain ⟨-, -, -, -, -, p6, p7, p8, -⟩ := iterPost_facts ctx l2 smid s2 hmid hit
    exact ⟨p6.trans hk.2.2.2.2.2.1, p7.trans hk.2.2.2.2.2.2.1,
      p8.trans hk.2.2.2.2.2.2.2.1⟩

/-- The inner driver loop leaves the SubTries output and the consumed-cutoff
counter untouched. -/
theorem iterUntil_frame (ctx : Ctx) (innerFuel : Nat) :
    ∀ fuel (s s2 : LState), iterUntil ctx innerFuel fuel s = some s2 →
      s2.roots = s.roots ∧ s2.hashes = s.hashes ∧
      s2.cutoffsConsumed = s.cutoffsConsumed := by
  intro fuel
  induction fuel with
  | zero =>
    intro s s2 h
    simp [iterUntil] at h
  | succ n ih =>
    intro s s2 h
    simp only [iterUntil] at h
    split at h
    · injection h with h
      subst h
      exact ⟨rfl, rfl, rfl⟩
    · rename_i hnp
      split at h
      · simp at h
      · rename_i s1 heq
        obtain ⟨a1, a2, a3⟩ :=
          iteration_frame ctx innerFuel false s s1 (by simpa using hnp) heq
        obtain ⟨b1, b2, b3⟩ := ih s1 s2 h
        exact ⟨b1.trans a1, b2.trans a2, b3.trans a3⟩

/-- The inner driver loop returns only with a pending stream item. -/
theorem iterUntil_present (ctx : Ctx) (innerFuel : Nat) :
    ∀ fuel (s s2 : LState), iterUntil ctx innerFuel fuel s = some s2 →
      s2.itemPresent = true := by
  intro fuel
  induction fuel with
  | zero =>
    intro s s2 h
    simp [iterUntil] at h
  | succ n ih =>
    intro s s2 h
    simp only [iterUntil] at h
    split at h
    · rename_i hp
      injection h with h
      subst h
      exact hp
    · split at h
      · simp at h
      · exact ih _ s2 h

/-- The dispatch switch appends exactly one root and one hash per cutoff item
and leaves the output untouched on every other item, so the difference between
output length and consumed cutoffs is constant. -/
theorem dispatch_balance (s s2 : LState) (h : dispatch s = some s2) :
    s2.roots.length + s.cutoffsConsumed = s.roots.length + s2.cutoffsConsumed ∧
    s2.hashes.length + s.cutoffsConsumed = s.hashes.length + s2.cutoffsConsumed := by
  unfold dispatch at h
  split at h
  · injection h with h
    subst h
    obtain ⟨w1, w2, w3, -⟩ := walkerStorage_out false s.storageKeyPart1 s.storageKeyPart2
      s.storageValue s.storageHash s.storageWitnessLen s
    rw [w1, w2, w3]
    exact ⟨rfl, rfl⟩
  · injection h with h
    subst h
    obtain ⟨w1, w2, w3, -⟩ := walkerStorage_out true s.storageKeyPart1 s.storageKeyPart2
      s.storageValue s.storageHash s.storageWitnessLen s
    rw [w1, w2, w3]
    exact ⟨rfl, rfl⟩
  · obtain ⟨w1, w2, w3, -⟩ := walkerAccount_out _ _ _ _ _ _ _ h
    rw [w1, w2, w3]
    exact ⟨rfl, rfl⟩
  · obtain ⟨w1, w2, w3, -⟩ := walkerAccount_out _ _ _ _ _ _ _ h
    rw [w1, w2, w3]
    exact ⟨rfl, rfl⟩
  · cases hfr : finaliseRoot s.streamCutoff s with
    | none =>
      rw [hfr] at h
      simp at h
    | some t =>
      rw [hfr] at h
      simp only [Option.map_some'] at h
      injection h with h
      subst h
      obtain ⟨f1, f2, f3, -⟩ := finaliseRoot_out _ _ _ hfr
      constructor
      · show t.roots.length + s.cutoffsConsumed = s.roots.length + (t.cutoffsConsumed + 1)
        omega
      · show t.hashes.length + s.cutoffsConsumed = s.hashes.length + (t.cutoffsConsumed + 1)
        omega

/-- Along the outer driver loop the difference between output length and the
number of consumed cutoff items is constant. -/
theorem loadLoop_balance (ctx : Ctx) (innerFuel : Nat) :
    ∀ fuel (s s2 : LState), loadLoop ctx innerFuel fuel s = some s2 →
      s2.roots.length + s.cutoffsConsumed = s.roots.length + s2.cutoffsConsumed ∧
      s2.hashes.length + s.cutoffsConsumed = s.hashes.length + s2.cutoffsConsumed := by
  intro fuel
  induction fuel with
  | zero =>
    intro s s2 h
    simp only [loadLoop] at h
    split at h
    · simp at h
    · injection h with h
      subst h
      exact ⟨rfl, rfl⟩
  | succ n ih =>
    intro s s2 h
    simp only [loadLoop] at h
    split at h
    · split at h
      · simp at h
      · rename_i s1 hiu
        split at h
        · simp at h
        · rename_i sd hdp
          obtain ⟨u1, u2, u3⟩ := iterUntil_frame ctx innerFuel (n + 1) s s1 hiu
          obtain ⟨d1, d2⟩ := dispatch_balance s1 sd hdp
          obtain ⟨r1, r2⟩ := ih { sd with itemPresent := false } s2 h
          have eu1 : ({ sd with itemPresent := false } : LState).roots = sd.roots := rfl
          have eu2 : ({ sd with itemPresent := false } : LState).hashes = sd.hashes := rfl
          have eu3 : ({ sd with itemPresent := false } : LState).cutoffsConsumed =
              sd.cutoffsConsumed := rfl
          rw [eu1, eu3] at r1
          rw [eu2, eu3] at r2
          have l1 : s1.roots.length = s.roots.length := by rw [u1]
          have l2 : s1.hashes.length = s.hashes.length := by rw [u2]
          exact ⟨by omega, by omega⟩
    · injection h with h
      subst h
      exact ⟨rfl, rfl⟩

/-- C1 (amended): every finaliseRoot call appends exactly one root and one
hash entry to the SubTries output, and along the driver loop the output grows
by exactly one entry per consumed cutoff item; the output therefore has one
entry per cutoff item consumed, not necessarily one per requested range. -/
theorem claim_C1_amended :
    (∀ (c : Nat) (s s2 : LState), finaliseRoot c s = some s2 →
      s2.roots.length = s.roots.length + 1 ∧ s2.hashes.length = s.hashes.length + 1) ∧
    (∀ (ctx : Ctx) (innerFuel fuel : Nat) (s s2 : LState),
      loadLoop ctx innerFuel fuel s = some s2 →
      s2.roots.length + s.cutoffsConsumed = s.roots.length + s2.cutoffsConsumed ∧
      s2.hashes.length + s.cutoffsConsumed = s.hashes.length + s2.cutoffsConsumed) := by
  constructor
  · intro c s s2 h
    obtain ⟨f1, f2, -⟩ := finaliseRoot_out c s s2 h
    exact ⟨f1, f2⟩
  · intro ctx innerFuel fuel s s2 h
    exact loadLoop_balance ctx innerFuel fuel s s2 h

/-- C1 (amended) witness: the balance applied to a concrete finaliseRoot call
and to the driver loop of the two-range load. -/
theorem claim_C1_amended_witness :
    (c1fin.roots.length = (resetLoader initialLoader).roots.length + 1 ∧
      c1fin.hashes.length = (resetLoader initialLoader).hashes.length + 1) ∧
    (c1end.roots.length + c1s1.cutoffsConsumed =
        c1s1.roots.length + c1end.cutoffsConsumed ∧
      c1end.hashes.length + c1s1.cutoffsConsumed =
        c1s1.hashes.length + c1end.cutoffsConsumed) :=
  ⟨claim_C1_amended.1 2 (resetLoader initialLoader) c1fin (by decide),
   claim_C1_amended.2 ctxTwoRanges 30 30 c1s1 c1end (by decide)⟩

/-- The fields the reconciliation loop keeps carry the witness-length
invariant across it. -/
theorem keepL_wlInv (s t : LState) (h : keepL s t) (hw : wlInv s) : wlInv t := by
  obtain ⟨k1, k2, k3, k4, -, -, -, -, -, k10, k11, k12, k13, -⟩ := h
  constructor
  · intro hh
    rw [k4, k10, k12]
    exact hw.1 (by rw [← k2]; exact hh)
  · intro hh
    rw [k3, k11, k13]
    exact hw.2 (by rw [← k1]; exact hh)

/-- At an item-free state the dispatch-side agreement collapses to the
witness-length invariant. -/
theorem wlMid_free (s : LState) (h : wlMid s) (hfree : s.itemPresent = false) :
    wlInv s := by
  obtain ⟨c1, -, c3, -⟩ := h
  constructor
  · rcases c1 with ⟨hp, -⟩ | hgood
    · rw [hfree] at hp
      exact absurd hp (by simp)
    · exact hgood
  · rcases c3 with ⟨hp, -⟩ | hgood
    · rw [hfree] at hp
      exact absurd hp (by simp)
    · exact hgood

/-- One iteration from an item-free state satisfying the witness-length
invariant re-establishes the dispatch-side agreement: only a fresh cached-hash
emission moves the stream-item counter of its level, and it records the lookup
in the ghost field at the same time. -/
theorem iteration_wlMid (ctx : Ctx) (fuel : Nat) (first : Bool) (s s2 : LState)
    (hw : wlInv s) (hnew : s.itemPresent = false)
    (hit : iteration ctx fuel first s = some s2) : wlMid s2 := by
  unfold iteration at hit
  dsimp only at hit
  split at hit
  · simp at hit
  · rename_i sr heq
    injection hit with hit
    subst hit
    have hk := (iterLoop_keep ctx first fuel _ s).1 sr heq
    have hw2 := keepL_wlInv s sr hk hw
    rcases keepL_item _ _ hk with ⟨hp, ht⟩ | ⟨hp, ht⟩
    · refine ⟨Or.inr hw2.1, fun hh => ?_, Or.inr hw2.2, fun hh => ?_⟩
      · rw [hp, hnew] at hh
        exact absurd hh.1 (by simp)
      · rw [hp, hnew] at hh
        exact absurd hh.1 (by simp)
    · refine ⟨Or.inr hw2.1, fun hh => ?_, Or.inr hw2.2, fun hh => ?_⟩
      · rw [ht] at hh
        exact absurd hh.2 (by simp)
      · rw [ht] at hh
        exact absurd hh.2 (by simp)
  · rename_i l2 smid heq
    have hk := (iterLoop_keep ctx first fuel _ s).2 l2 smid heq
    have hw2 := keepL_wlInv s smid hk hw
    have hmid : smid.itemPresent = true → smid.itemType = .cutoff := by
      rcases keepL_item _ _ hk with ⟨hp, ht⟩ | ⟨hp, ht⟩
      · intro h
        rw [hp, hnew] at h
        exact absurd h (by simp)
      · intro _
        exact ht
    obtain ⟨p1, p2, p3, p4, -, -, -, -, -, p10, p11, p12, p13⟩ :=
      iterPost_facts ctx l2 smid s2 hmid hit
    refine ⟨?_, p10, ?_, p11⟩
    · rcases p12 with ⟨e1, e2⟩ | hsh
      · refine Or.inr (fun hh => ?_)
        rw [p2] at hh
        rw [p4, e1, e2]
        exact hw2.1 hh
      · exact Or.inl hsh
    · rcases p13 with ⟨e1, e2⟩ | hah
      · refine Or.inr (fun hh => ?_)
        rw [p1] at hh
        rw [p3, e1, e2]
        exact hw2.2 hh
      · exact Or.inl hah

/-- The inner driver loop preserves the dispatch-side agreement. -/
theorem iterUntil_wlMid (ctx : Ctx) (innerFuel : Nat) :
    ∀ fuel (s s2 : LState), wlMid s → iterUntil ctx innerFuel fuel s = some s2 →
      wlMid s2 := by
  intro fuel
  induction fuel with
  | zero =>
    intro s s2 _ h
    simp [iterUntil] at h
  | succ n ih =>
    intro s s2 hw h
    simp only [iterUntil] at h
    split at h
    · injection h with h
      subst h
      exact hw
    · rename_i hnp
      split at h
      · simp at h
      · rename_i s1 heq
        have hfree : s.itemPresent = false := by simpa using hnp
        exact ih s1 s2
          (iteration_wlMid ctx innerFuel false s s1 (wlMid_free s hw hfree) hfree heq) h

/-- Dispatching the pending item restores the witness-length invariant: the
walker of a cached hash copies the stream-item counter of its level into the
walker counter after flushing the previous entry. -/
theorem dispatch_wlInv (s s2 : LState) (hw : wlMid s) (hp : s.itemPresent = true)
    (h : dispatch s = some s2) : wlInv s2 := by
  obtain ⟨c1, c2, c3, c4⟩ := hw
  have hsg : s.itemType ≠ .shash → s.wasIHStorage = true →
      s.witnessLenStorage = s.storageWitnessLen ∧
      s.lastSHashWL = some s.storageWitnessLen := by
    intro hne
    rcases c1 with ⟨-, hty⟩ | hgood
    · exact absurd hty hne
    · exact hgood
  have hag : s.itemType ≠ .ahash → s.wasIH = true →
      s.witnessLenAccount = s.accountWitnessLen ∧
      s.lastAHashWL = some s.accountWitnessLen := by
    intro hne
    rcases c3 with ⟨-, hty⟩ | hgood
    · exact absurd hty hne
    · exact hgood
  unfold dispatch at h
  cases hty : s.itemType with
  | storage =>
    rw [hty] at h
    injection h with h
    subst h
    obtain ⟨-, -, -, w4, w5, w6, w7, w8, w9, w10, w11⟩ :=
      walkerStorage_out false s.storageKeyPart1 s.storageKeyPart2 s.storageValue
        s.storageHash s.storageWitnessLen s
    constructor
    · intro hh
      rw [w4] at hh
      exact absurd hh (by simp)
    · intro hh
      rw [w8] at hh
      rw [w9, w10, w11]
      exact hag (by rw [hty]; simp) hh
  | shash =>
    rw [hty] at h
    injection h with h
    subst h
    obtain ⟨-, -, -, w4, w5, w6, w7, w8, w9, w10, w11⟩ :=
      walkerStorage_out true s.storageKeyPart1 s.storageKeyPart2 s.storageValue
        s.storageHash s.storageWitnessLen s
    constructor
    · intro hh
      rw [w5, w6, w7]
      refine ⟨by simp, ?_⟩
      exact c2 ⟨hp, hty⟩
    · intro hh
      rw [w8] at hh
      rw [w9, w10, w11]
      exact hag (by rw [hty]; simp) hh
  | account =>
    rw [hty] at h
    have h2 : walkerAccount false s.accountKey s.accountValue s.accountHash
        s.accountWitnessLen s = some s2 := h
    obtain ⟨-, -, -, w4, w5, w6, w7, w8, w9, w10, w11⟩ :=
      walkerAccount_out _ _ _ _ _ _ _ h2
    constructor
    · intro hh
      rcases w4 with w4 | w4
      · rw [w4] at hh
        exact absurd hh (by simp)
      · rw [w4] at hh
        rw [w5, w6, w7]
        exact hsg (by rw [hty]; simp) hh
    · intro hh
      rw [w8] at hh
      exact absurd hh (by simp)
  | ahash =>
    rw [hty] at h
    have h2 : walkerAccount true s.accountKey s.accountValue s.accountHash
        s.accountWitnessLen s = some s2 := h
    obtain ⟨-, -, -, w4, w5, w6, w7, w8, w9, w10, w11⟩ :=
      walkerAccount_out _ _ _ _ _ _ _ h2
    constructor
    · intro hh
      rcases w4 with w4 | w4
      · rw [w4] at hh
        exact absurd hh (by simp)
      · rw [w4] at hh
        rw [w5, w6, w7]
        exact hsg (by rw [hty]; simp) hh
    · intro hh
      rw [w9, w10, w11]
      refine ⟨by simp, ?_⟩
      exact c4 ⟨hp, hty⟩
  | cutoff =>
    rw [hty] at h
    have h2 : (finaliseRoot s.streamCutoff s).map
        (fun t => { t with cutoffsConsumed := t.cutoffsConsumed + 1 }) = some s2 := h
    cases hfr : finaliseRoot s.streamCutoff s with
    | none =>
      rw [hfr] at h2
      simp at h2
    | some t =>
      rw [hfr] at h2
      simp only [Option.map_some'] at h2
      injection h2 with h2
      subst h2
      obtain ⟨-, -, -, f4, f5, f6, f7, f8, f9, f10, f11⟩ := finaliseRoot_out _ _ _ hfr
      constructor
      · intro hh
        have hh2 : t.wasIHStorage = true := hh
        rcases f4 with f4 | f4
        · rw [f4] at hh2
          exact absurd hh2 (by simp)
        · rw [f4] at hh2
          have hgoal : t.witnessLenStorage = t.storageWitnessLen ∧
              t.lastSHashWL = some t.storageWitnessLen := by
            rw [f6, f7, f8]
            exact hsg (by rw [hty]; simp) hh2
          exact hgoal
      · intro hh
        have hh2 : t.wasIH = true := hh
        rcases f5 with f5 | f5
        · rw [f5] at hh2
          exact absurd hh2 (by simp)
        · rw [f5] at hh2
          have hgoal : t.witnessLenAccount = t.accountWitnessLen ∧
              t.lastAHashWL = some t.accountWitnessLen := by
            rw [f9, f10, f11]
            exact hag (by rw [hty]; simp) hh2
          exact hgoal

/-- C2: per trie level there is a single consistent witness-length counter.
The witness-length invariant holds after Reset, is re-established by every
iteration/dispatch round of the driver, and under it every storage-level
HashData emission — the one in WalkerStorage, reading witnessLenStorage, and
the one in finaliseStorageRoot, reading storageWitnessLen — carries a DataLen
equal to the witness length looked up for the most recently delivered storage
hash item (the ghost lastSHashWL), the two counters being equal; likewise at
the account level for WalkerAccount (witnessLenAccount) and finaliseRoot
(accountWitnessLen) against lastAHashWL. -/
theorem claim_C2_witness_len_counter :
    (∀ s : LState, wlInv (resetLoader s)) ∧
    (∀ (ctx : Ctx) (fuel : Nat) (first : Bool) (s s2 : LState),
      wlInv s → s.itemPresent = false → iteration ctx fuel first s = some s2 →
      wlMid s2) ∧
    (∀ (ctx : Ctx) (innerFuel fuel : Nat) (s s1 s2 : LState),
      wlMid s → iterUntil ctx innerFuel fuel s = some s1 → dispatch s1 = some s2 →
      wlInv s2) ∧
    (∀ (isIH : Bool) (p1 p2 v hsh : Bytes) (wl : Nat) (s : LState),
      wlInv s → s.wasIHStorage = true → 0 < s.succStorage.length →
      (walkerStorage isIH p1 p2 v hsh wl s).hb =
        HBOp.genStruct s.succStorage
          (keyToNibbles p1 ++ keyToNibbles p2 ++ (if isIH then [] else [16]))
          (GSData.hashD (bytesToHash32 s.valueStorage) s.witnessLenStorage) :: s.hb ∧
      some s.witnessLenStorage = s.lastSHashWL ∧
      s.witnessLenStorage = s.storageWitnessLen) ∧
    (∀ (c : Nat) (s : LState) (b : Bool) (t : LState),
      wlInv s → s.wasIHStorage = true → 0 < s.succStorage.length →
      finaliseStorageRoot c s = some (b, t) →
      (∃ succS, t.hb =
        HBOp.genStruct s.succStorage succS
          (GSData.hashD (bytesToHash32 s.valueStorage) s.storageWitnessLen) :: s.hb) ∧
      some s.storageWitnessLen = s.lastSHashWL ∧
      s.storageWitnessLen = s.witnessLenStorage) ∧
    (∀ (isIH : Bool) (k : Bytes) (v : Account) (hsh : Bytes) (wl : Nat) (s s2 : LState),
      wlInv s → s.wasIH = true → 0 < s.succ.length →
      walkerAccount isIH k v hsh wl s = some s2 →
      (∃ rest, s2.hb = rest ++
        HBOp.genStruct s.succ (keyToNibbles k ++ (if isIH then [] else [16]))
          (GSData.hashD (copyBytes s.hashDataHash s.value) s.witnessLenAccount) ::
          s.hb) ∧
      some s.witnessLenAccount = s.lastAHashWL ∧
      s.witnessLenAccount = s.accountWitnessLen) ∧
    (∀ (c : Nat) (s s2 : LState),
      wlInv s → s.wasIH = true → c < 64 → 0 < s.succ.length →
      finaliseRoot c s = some s2 →
      (∃ succ2, s2.roots = s.roots ++
        [some (HBOp.genStruct s.succ succ2
          (GSData.hashD (bytesToHash32 s.value) s.accountWitnessLen) :: s.hb)]) ∧
      some s.accountWitnessLen = s.lastAHashWL ∧
      s.accountWitnessLen = s.witnessLenAccount) := by
  refine ⟨?_, ?_, ?_, ?_, ?_, ?_, ?_⟩
  · intro s
    exact ⟨fun h => by simp [resetLoader] at h, fun h => by simp [resetLoader] at h⟩
  · intro ctx fuel first s s2 hw hfree hit
    exact iteration_wlMid ctx fuel first s s2 hw hfree hit
  · intro ctx innerFuel fuel s s1 s2 hw hiu hdp
    exact dispatch_wlInv s1 s2 (iterUntil_wlMid ctx innerFuel fuel s s1 hw hiu)
      (iterUntil_present ctx innerFuel fuel s s1 hiu) hdp
  · intro isIH p1 p2 v hsh wl s hwI hih hlen
    refine ⟨?_, by rw [(hwI.1 hih).1, (hwI.1 hih).2], (hwI.1 hih).1⟩
    unfold walkerStorage
    simp [hih, hlen]
  · intro c s b t hwI hih hlen h
    refine ⟨?_, by rw [(hwI.1 hih).2], ((hwI.1 hih).1).symm⟩
    unfold finaliseStorageRoot at h
    dsimp only at h
    split at h
    · split at h
      · simp at h
      · split at h <;>
          first
            | (injection h with h
               injection h with h1 h2
               subst h2
               exact ⟨s.succStorage.take (c - 1) ++ [s.succStorage.getD (c - 1) 0 + 1],
                 by simp [hih]⟩)
            | simp_all
    · rename_i hcon
      exact absurd hlen hcon
  · intro isIH k v hsh wl s s2 hwI hih hlen hw
    refine ⟨?_, by rw [(hwI.2 hih).1, (hwI.2 hih).2], (hwI.2 hih).1⟩
    unfold walkerAccount at hw
    dsimp only at hw
    split at hw
    · simp at hw
    · rename_i sf heq
      have hsf : sf.hb = HBOp.genStruct s.succ
          (keyToNibbles k ++ (if isIH then [] else [16]))
          (GSData.hashD (copyBytes s.hashDataHash s.value) s.witnessLenAccount) ::
          s.hb := by
        split at heq
        · split at heq
          · simp at heq
          · rename_i data s3 hds
            injection heq with heq
            subst heq
            split at hds <;>
              first
                | (injection hds with hds
                   injection hds with hd1 hd2
                   subst hd1
                   subst hd2
                   simp_all)
                | simp_all
        · rename_i hcon
          exact absurd hlen hcon
      split at hw
      · rename_i hisih
        injection hw with hw
        subst hw
        exact ⟨[], by simp [hsf]⟩
      · rename_i hisih
        split at hw
        · injection hw with hw
          subst hw
          exact ⟨[HBOp.hashOp v.codeHash 0], by simp [hsf]⟩
        · injection hw with hw
          subst hw
          exact ⟨[], by simp [hsf]⟩
  · intro c s s2 hwI hih hc64 hlen h
    refine ⟨?_, by rw [(hwI.2 hih).2], ((hwI.2 hih).1).symm⟩
    unfold finaliseRoot at h
    split at h
    · rename_i h64
      exact absurd h64 (by omega)
    · dsimp only at h
      split at h
      · simp at h
      · rename_i sf heq
        have hsf : sf.roots = s.roots ∧ sf.hb = HBOp.genStruct s.succ
            (if 0 < c then s.succ.take (c - 1) ++ [s.succ.getD (c - 1) 0 + 1] else [])
            (GSData.hashD (bytesToHash32 s.value) s.accountWitnessLen) :: s.hb := by
          split at heq
          · split at heq
            · simp at heq
            · split at heq
              · simp at heq
              · rename_i data s3 hds
                injection heq with heq
                subst heq
                split at hds <;>
                  first
                    | (injection hds with hds
                       injection hds with hd1 hd2
                       subst hd1
                       subst hd2
                       exact ⟨by simp, by simp_all⟩)
                    | simp_all
          · rename_i hcon
            exact absurd hlen hcon
        injection h with h
        subst h
        exact ⟨if 0 < c then s.succ.take (c - 1) ++ [s.succ.getD (c - 1) 0 + 1] else [],
          by simp [hsf.1, hsf.2]⟩

/-- C2 witness: the round agreement applied to the first iteration over the
storage range with a cached hash, which emits an SHashStreamItem. -/
theorem claim_C2_witness_len_counter_witness : wlMid c4s2 :=
  claim_C2_witness_len_counter.2.1 ctxStorRange 40 true (resetLoader initialLoader) c4s2
    ⟨fun h => absurd h (by decide), fun h => absurd h (by decide)⟩ (by decide) (by decide)

end FlatDb
